import Mathlib

/-!
Verification development for the Orbex indexer's market-state engine: the
orderbook reducer, the UDF query handlers, the ingestion loop and the candle
aggregator.  Pure-functional shallow embedding: the Rust `Decimal` domain is
modelled by `ℚ`, chain `u128` scaled integers by `ℕ`, `BTreeMap`s and `HashMap`s
by association lists, and in-place mutation by explicit state passing.
-/

/-! ### Association-list primitives

`alookup` returns the value of the first entry with the given key, `aupdate`
replaces the first entry with the given key (appending a fresh entry when the
key is absent), `aremove` drops the first entry with the given key.  These model
map `get` / `insert` / `remove`. -/

def alookup {κ α : Type} [DecidableEq κ] (k : κ) : List (κ × α) → Option α
  | [] => none
  | e :: rest => if e.1 = k then some e.2 else alookup k rest

def aupdate {κ α : Type} [DecidableEq κ] (k : κ) (v : α) : List (κ × α) → List (κ × α)
  | [] => [(k, v)]
  | e :: rest => if e.1 = k then (k, v) :: rest else e :: aupdate k v rest

def aremove {κ α : Type} [DecidableEq κ] (k : κ) : List (κ × α) → List (κ × α)
  | [] => []
  | e :: rest => if e.1 = k then rest else e :: aremove k rest

/-! ### Orderbook data model

`OrderInfo` is embedded from `event_collector.rs` (the `OrderInfo` literal built
for `OrderPlaced`): `side` and `status` are the strings the ingestion loop
stores ("Buy"/"Sell", "Open"/"PartiallyFilled"/"Filled"/"Cancelled"), prices and
quantities live in the decimal domain (`ℚ`). -/

structure OrderInfo where
  order_id : ℕ
  side : String
  price : ℚ
  quantity : ℚ
  filled_quantity : ℚ
  status : String
  deriving DecidableEq, Repr

/-- Modelled from the spec: `OrderbookState` "owns the order map, the two
price-level indexes" (§3); the price-level index is a "mapping from price →
ordered sequence of order_ids resting there, order preserved as arrival order".
The field names `orders`, `bids`, `asks` are the ones the handlers in
`udf.rs` and `orderbook_hand.rs` access. -/
structure OrderbookState where
  orders : List (ℕ × OrderInfo)
  bids : List (ℚ × List ℕ)
  asks : List (ℚ × List ℕ)
  deriving DecidableEq, Repr

def emptyState : OrderbookState := ⟨[], [], []⟩

/-! Bucket operations on a price-level index. -/

def bucketGet (p : ℚ) (m : List (ℚ × List ℕ)) : List ℕ :=
  (alookup p m).getD []

def bucketAppend (p : ℚ) (id : ℕ) (m : List (ℚ × List ℕ)) : List (ℚ × List ℕ) :=
  aupdate p (bucketGet p m ++ [id]) m

def bucketRemove (p : ℚ) (id : ℕ) (m : List (ℚ × List ℕ)) : List (ℚ × List ℕ) :=
  if ((bucketGet p m).filter (fun x => x ≠ id)).isEmpty then aremove p m
  else aupdate p ((bucketGet p m).filter (fun x => x ≠ id)) m

/-- Total number of occurrences of `id` across all price buckets of one side. -/
def countIn (id : ℕ) (m : List (ℚ × List ℕ)) : ℕ :=
  (m.map (fun e => e.2.count id)).sum

/-! ### Reducer operations (modelled from the spec, `orderbook_reducer.rs` is
not among the provided sources). -/

inductive ObError
  | notFound
  deriving DecidableEq, Repr

/-- Modelled from the spec: `add_order(order)` "inserts into the order map and
appends order_id to the tail of its side/price bucket, preserving time
priority" (§4.1).  Duplicate `order_id` is an explicit open policy point (§9);
this model picks the reject policy: an `add_order` whose id is already in the
order map leaves the state unchanged (consistent with "order_id unique,
externally assigned" in §3). -/
def add_order (o : OrderInfo) (s : OrderbookState) : OrderbookState :=
  if (alookup o.order_id s.orders).isSome then s
  else
    { orders := aupdate o.order_id o s.orders
      bids := if o.side = "Buy" then bucketAppend o.price o.order_id s.bids else s.bids
      asks := if o.side = "Buy" then s.asks else bucketAppend o.price o.order_id s.asks }

/-- Modelled from the spec: `cancel_order(order_id)` "fails with NotFound if
absent; removes the id from its price bucket (no-op if already removed); sets
status = Cancelled; retains the order record" (§4.1). -/
def cancel_order (id : ℕ) (s : OrderbookState) : Except ObError OrderbookState :=
  match alookup id s.orders with
  | none => .error .notFound
  | some o =>
    .ok { orders := aupdate id { o with status := "Cancelled" } s.orders
          bids := if o.side = "Buy" then bucketRemove o.price id s.bids else s.bids
          asks := if o.side = "Buy" then s.asks else bucketRemove o.price id s.asks }

/-- Modelled from the spec: `update_order(order_id, new_filled_quantity,
new_status)` "fails with NotFound if absent; sets filled_quantity and status.
If new_status is terminal (Filled), removes the id from its price bucket; if
PartiallyFilled, the order remains resting at its original time-priority
position" (§4.1). -/
def update_order (id : ℕ) (f : ℚ) (st : String) (s : OrderbookState) :
    Except ObError OrderbookState :=
  match alookup id s.orders with
  | none => .error .notFound
  | some o =>
    let rm := st = "Filled"
    .ok { orders := aupdate id { o with filled_quantity := f, status := st } s.orders
          bids := if rm ∧ o.side = "Buy" then bucketRemove o.price id s.bids else s.bids
          asks := if rm ∧ ¬ o.side = "Buy" then bucketRemove o.price id s.asks else s.asks }

/-! ### Queries -/

def listMax : List ℚ → Option ℚ
  | [] => none
  | x :: xs =>
    match listMax xs with
    | none => some x
    | some m => some (max x m)

def listMin : List ℚ → Option ℚ
  | [] => none
  | x :: xs =>
    match listMin xs with
    | none => some x
    | some m => some (min x m)

/-- Modelled from the spec: `get_spread()` "returns None if either side has
zero resting orders, else (best_bid_price, best_ask_price) where best_bid is
the maximum bid price and best_ask the minimum ask price" (§4.1). -/
def get_spread (s : OrderbookState) : Option (ℚ × ℚ) :=
  match listMax (s.bids.map Prod.fst), listMin (s.asks.map Prod.fst) with
  | some b, some a => some (b, a)
  | _, _ => none

def insertDescBy (e : ℚ × List ℕ) : List (ℚ × List ℕ) → List (ℚ × List ℕ)
  | [] => [e]
  | x :: xs => if x.1 ≤ e.1 then e :: x :: xs else x :: insertDescBy e xs

def insertAscBy (e : ℚ × List ℕ) : List (ℚ × List ℕ) → List (ℚ × List ℕ)
  | [] => [e]
  | x :: xs => if e.1 ≤ x.1 then e :: x :: xs else x :: insertAscBy e xs

def sortDesc (m : List (ℚ × List ℕ)) : List (ℚ × List ℕ) := m.foldr insertDescBy []

def sortAsc (m : List (ℚ × List ℕ)) : List (ℚ × List ℕ) := m.foldr insertAscBy []

/-- Modelled from the spec: `get_bid_depth(n)`: "up to n (price, order_count)
pairs, best-first (bids descending)" (§4.1). -/
def get_bid_depth (s : OrderbookState) (n : ℕ) : List (ℚ × ℕ) :=
  ((sortDesc s.bids).take n).map (fun e => (e.1, e.2.length))

/-- Modelled from the spec: `get_ask_depth(n)`: "up to n (price, order_count)
pairs, best-first (asks ascending)" (§4.1). -/
def get_ask_depth (s : OrderbookState) (n : ℕ) : List (ℚ × ℕ) :=
  ((sortAsc s.asks).take n).map (fun e => (e.1, e.2.length))

/-- `u128::saturating_sub` transported to the decimal domain: subtraction
clamped below at zero. -/
def satSub (a b : ℚ) : ℚ := max (a - b) 0

/-- From `udf.rs` (`udf_depth`): the per-level total quantity, summing
`o.quantity.saturating_sub(o.filled_quantity)` over the ids listed at price `p`
in the **bids** index (`ob.bids.get(price)`), skipping unknown ids
(`filter_map`). -/
def levelQtyFromBids (s : OrderbookState) (p : ℚ) : ℚ :=
  ((bucketGet p s.bids).filterMap
    (fun id => (alookup id s.orders).map
      (fun o => satSub o.quantity o.filled_quantity))).sum

/-- From `udf.rs` (`udf_depth`): builds the bid and ask level lists
`(price, order_count, total_quantity)`, `depth = levels.unwrap_or(20)`.  Note
the source computes the quantity of each **ask** level from `ob.bids` as well
(lines 196‑206 read `ob.bids.get(price)` inside the asks map). -/
def udf_depth (s : OrderbookState) (levels : Option ℕ) :
    List (ℚ × ℕ × ℚ) × List (ℚ × ℕ × ℚ) :=
  let depth := levels.getD 20
  let ask_levels := get_ask_depth s depth
  let bid_levels := get_bid_depth s depth
  (bid_levels.map (fun e => (e.1, e.2, levelQtyFromBids s e.1)),
   ask_levels.map (fun e => (e.1, e.2, levelQtyFromBids s e.1)))

/-- From `orderbook_hand.rs` (`get_order`): looks the id up in the order map and
returns the stored order together with `remaining_quantity`, computed there as
the plain difference `order.quantity - order.filled_quantity`. -/
def get_order (id : ℕ) (s : OrderbookState) : Option (OrderInfo × ℚ) :=
  (alookup id s.orders).map (fun o => (o, o.quantity - o.filled_quantity))

/-! ### Events and the ingestion loop (`event_collector.rs`) -/

inductive OrderSide
  | Buy
  | Sell
  deriving DecidableEq, Repr

/-- The `Display` impl in `runtime.rs`: Buy ↦ "Buy", Sell ↦ "Sell". -/
def OrderSide.toStr : OrderSide → String
  | .Buy => "Buy"
  | .Sell => "Sell"

/-- The decoded chain events (§6); all amounts are scaled integers (`u128`,
fixed-point ×1,000,000). -/
inductive Event
  | orderPlaced (order_id : ℕ) (side : OrderSide) (price quantity : ℕ)
  | orderCancelled (order_id : ℕ)
  | orderFilled (order_id : ℕ)
  | orderPartiallyFilled (order_id : ℕ) (filled_quantity remaining_quantity : ℕ)
  | tradeExecuted (symbol : String) (price quantity : ℕ) (timestamp : ℕ)
  deriving DecidableEq, Repr

/-- From `event_collector.rs`: `Decimal::from(x) / Decimal::from(1_000_000)`. -/
def toDec (x : ℕ) : ℚ := (x : ℚ) / 1000000

def exceptD {ε α : Type} (d : α) : Except ε α → α
  | .ok a => a
  | .error _ => d

/-- From `event_collector.rs` (`start`), the orderbook effect of one event:
`OrderPlaced` builds an `OrderInfo` with converted price/quantity, zero filled
quantity and status "Open" and calls `add_order`; `OrderCancelled` calls
`cancel_order`, discarding the result (`let _ = ...`); `OrderFilled` reads the
order's stored quantity and, only when found, calls
`update_order(id, qty, "Filled")`; `OrderPartiallyFilled` calls
`update_order(id, filled/10^6, "PartiallyFilled")`, discarding the result.
`TradeExecuted` does not touch the orderbook. -/
def applyEvent (s : OrderbookState) : Event → OrderbookState
  | .orderPlaced id side p q =>
    add_order
      { order_id := id, side := side.toStr, price := toDec p, quantity := toDec q,
        filled_quantity := 0, status := "Open" } s
  | .orderCancelled id => exceptD s (cancel_order id s)
  | .orderFilled id =>
    match alookup id s.orders with
    | some o => exceptD s (update_order id o.quantity "Filled" s)
    | none => s
  | .orderPartiallyFilled id f _ =>
    exceptD s (update_order id (toDec f) "PartiallyFilled" s)
  | .tradeExecuted _ _ _ _ => s

def applyEvents (s : OrderbookState) (es : List Event) : OrderbookState :=
  es.foldl applyEvent s

/-! ### Lemmas about the association-list primitives -/

variable {κ α : Type} [DecidableEq κ]

/-! ### Well-formedness of the orderbook state -/

/-- An order's status keeps it resting in the book: "Open or PartiallyFilled"
(§3). -/
def activeStatus (st : String) : Prop := st = "Open" ∨ st = "PartiallyFilled"

instance (st : String) : Decidable (activeStatus st) := by
  unfold activeStatus
  infer_instance

/-- The price-level index of the order's own side. -/
def ownSide (o : OrderInfo) (s : OrderbookState) : List (ℚ × List ℕ) :=
  if o.side = "Buy" then s.bids else s.asks

/-- The price-level index of the opposite side. -/
def othSide (o : OrderInfo) (s : OrderbookState) : List (ℚ × List ℕ) :=
  if o.side = "Buy" then s.asks else s.bids

/-- Where a stored order may rest: an active order occurs exactly once, in its
own side's bucket at its price; a terminal order occurs nowhere. -/
def orderWF (s : OrderbookState) (id : ℕ) (o : OrderInfo) : Prop :=
  (o.side = "Buy" ∨ o.side = "Sell") ∧
  (if activeStatus o.status then
     (bucketGet o.price (ownSide o s)).count id = 1 ∧
     countIn id (ownSide o s) = 1 ∧ countIn id (othSide o s) = 0
   else countIn id s.bids = 0 ∧ countIn id s.asks = 0)

/-- Well-formedness of a reachable orderbook state: the maps have no duplicate
keys, price buckets are nonempty, every id resting in a bucket is a known
order, and every stored order rests exactly where its status says. -/
def WF (s : OrderbookState) : Prop :=
  (s.orders.map Prod.fst).Nodup ∧
  (s.bids.map Prod.fst).Nodup ∧
  (s.asks.map Prod.fst).Nodup ∧
  (∀ e ∈ s.bids, e.2 ≠ []) ∧
  (∀ e ∈ s.asks, e.2 ≠ []) ∧
  (∀ e ∈ s.bids, ∀ id ∈ e.2, (alookup id s.orders).isSome) ∧
  (∀ e ∈ s.asks, ∀ id ∈ e.2, (alookup id s.orders).isSome) ∧
  (∀ e ∈ s.orders, orderWF s e.1 e.2)

instance (s : OrderbookState) : Decidable (WF s) := by
  unfold WF orderWF
  infer_instance

/-! ### Event-level invariants -/

/-- The guard under which the book-location invariant is preserved: a partial
fill must target an order that is still resting (Open or PartiallyFilled). -/
def evGuard (s : OrderbookState) : Event → Bool
  | .orderPartiallyFilled id _ _ =>
    match alookup id s.orders with
    | some o => decide (activeStatus o.status)
    | none => true
  | _ => true

def seqGuard (s : OrderbookState) : List Event → Bool
  | [] => true
  | e :: es => evGuard s e && seqGuard (applyEvent s e) es

/-- Every stored order has nonnegative quantities with filled ≤ quantity. -/
def ordersQtyOK (s : OrderbookState) : Prop :=
  ∀ e ∈ s.orders, 0 ≤ e.2.quantity ∧ 0 ≤ e.2.filled_quantity ∧
    e.2.filled_quantity ≤ e.2.quantity

instance (s : OrderbookState) : Decidable (ordersQtyOK s) := by
  unfold ordersQtyOK
  infer_instance

/-- The guard under which the quantity invariant is preserved: a partial fill
may not report more filled than the order's original quantity. -/
def evFillGuard (s : OrderbookState) : Event → Bool
  | .orderPartiallyFilled id f _ =>
    match alookup id s.orders with
    | some o => decide (toDec f ≤ o.quantity)
    | none => true
  | _ => true

def seqFillGuard (s : OrderbookState) : List Event → Bool
  | [] => true
  | e :: es => evFillGuard s e && seqFillGuard (applyEvent s e) es

/-! ### Candle aggregator (modelled from the spec, `candle_aggregator.rs` is
not among the provided sources) -/

/-- Modelled from the spec: `Bar` (TvBar): "time (bucket start, seconds), open,
high, low, close, volume" (§3).  The open price field is named `opn` because
`open` is a reserved word. -/
structure TvBar where
  time : ℕ
  opn : ℚ
  high : ℚ
  low : ℚ
  close : ℚ
  volume : ℚ
  deriving DecidableEq, Repr

/-- Modelled from the spec: `CandleUpdate`: "envelope emitted per trade per
timeframe: symbol, timeframe label, bar, is_closed flag" (§3). -/
structure CandleUpdate where
  symbol : String
  timeframe : String
  bar : TvBar
  is_closed : Bool
  deriving DecidableEq, Repr

/-- Modelled from the spec: the "fixed and enumerated" timeframe set with its
bucket widths in seconds (§3, "e.g. 1m/5m/15m/1h/4h/1D"). -/
def timeframes : List (String × ℕ) :=
  [("1m", 60), ("5m", 300), ("15m", 900), ("1h", 3600), ("4h", 14400), ("1D", 86400)]

/-- Modelled from the spec: `CandleAggregator` "owns, per (symbol, timeframe),
the currently open bar and a bounded list of closed bars" (§3). -/
structure CandleAggregator where
  current : List ((String × String) × TvBar)
  closed : List ((String × String) × List TvBar)
  deriving DecidableEq, Repr

def emptyAggregator : CandleAggregator := ⟨[], []⟩

/-- Modelled from the spec (§4.2), the per-timeframe step of `process_trade`:
compute `bucket_start = floor(trade_timestamp / bucket_width) * bucket_width`;
if no bar is open for (symbol, timeframe), open a fresh bar and emit one
not-closed update; if the bucket start is past the open bar's bucket, emit a
closed update for the old bar and then a not-closed update for the fresh bar;
otherwise merge the trade into the open bar (high = max, low = min,
close = price, volume += quantity) and emit one not-closed update. -/
def processTradeTF (sym : String) (price qty : ℚ) (t : ℕ) (tf : String) (w : ℕ)
    (agg : CandleAggregator) : CandleAggregator × List CandleUpdate :=
  let bucket_start := t / w * w
  match alookup (sym, tf) agg.current with
  | none =>
    let bar : TvBar := ⟨bucket_start, price, price, price, price, qty⟩
    ({ agg with current := aupdate (sym, tf) bar agg.current },
     [⟨sym, tf, bar, false⟩])
  | some bar =>
    if bucket_start > bar.time then
      let nb : TvBar := ⟨bucket_start, price, price, price, price, qty⟩
      ({ current := aupdate (sym, tf) nb agg.current
         closed := aupdate (sym, tf) (((alookup (sym, tf) agg.closed).getD []) ++ [bar])
           agg.closed },
       [⟨sym, tf, bar, true⟩, ⟨sym, tf, nb, false⟩])
    else
      let ub : TvBar :=
        { bar with
          high := max bar.high price
          low := min bar.low price
          close := price
          volume := bar.volume + qty }
      ({ agg with current := aupdate (sym, tf) ub agg.current },
       [⟨sym, tf, ub, false⟩])

/-- Modelled from the spec: `process_trade(symbol, price, quantity,
trade_timestamp)` runs the per-timeframe step "for every configured timeframe"
(§4.2), concatenating the emitted updates in timeframe order. -/
def processTimeframes (sym : String) (price qty : ℚ) (t : ℕ) :
    List (String × ℕ) → CandleAggregator → CandleAggregator × List CandleUpdate
  | [], agg => (agg, [])
  | (tf, w) :: rest, agg =>
    let r1 := processTradeTF sym price qty t tf w agg
    let r2 := processTimeframes sym price qty t rest r1.1
    (r2.1, r1.2 ++ r2.2)

def process_trade (sym : String) (price qty : ℚ) (t : ℕ) (agg : CandleAggregator) :
    CandleAggregator × List CandleUpdate :=
  processTimeframes sym price qty t timeframes agg

/-- Modelled from the spec: the Trade Processing Context "converts scaled
integer amounts to decimal domain values ... and feeds the trade into the
aggregator" (§4.3, §6); persistence is out of scope.  Only `TradeExecuted`
events touch the aggregator. -/
def applyTradeEvent (agg : CandleAggregator) : Event → CandleAggregator × List CandleUpdate
  | .tradeExecuted sym p q t => process_trade sym (toDec p) (toDec q) t agg
  | _ => (agg, [])

/-- The number of orders resting on one side (all buckets together). -/
def restingCount (m : List (ℚ × List ℕ)) : ℕ :=
  (m.map (fun e => e.2.length)).sum

/-! ### Scenario states and spec-side reference definitions -/

/-- A concrete book: one bid of 2 at 50000 (order 1), one ask of 1 at 50010
(order 2), matching the spec's §8 scenario. -/
def spreadScenarioState : OrderbookState :=
  { orders := [(1, ⟨1, "Buy", 50000, 2, 0, "Open"⟩), (2, ⟨2, "Sell", 50010, 1, 0, "Open"⟩)]
    bids := [(50000, [1])]
    asks := [(50010, [2])] }

/-- Following the spec's words (the reference the depth endpoint is measured
against): an ask level's total remaining quantity sums over the orders resting
at that price in the **ask** index. -/
def levelQtyFromAsksSpec (s : OrderbookState) (p : ℚ) : ℚ :=
  ((bucketGet p s.asks).filterMap
    (fun i => (alookup i s.orders).map
      (fun o => satSub o.quantity o.filled_quantity))).sum

/-- The book reached from empty by `OrderPlaced{id=1, Sell, price=50010e6,
quantity=2e6}`: a single resting ask of remaining 2 at 50010, no bids. -/
def c1State : OrderbookState :=
  { orders := [(1, ⟨1, "Sell", 50010, 2, 0, "Open"⟩)]
    bids := []
    asks := [(50010, [1])] }

/-- The invariant claimed by C4: a stored order's id occurs (exactly once,
across both sides' price-level sequences together) iff its status is Open or
PartiallyFilled. -/
def InBookIffActive (s : OrderbookState) : Prop :=
  ∀ id o, alookup id s.orders = some o →
    (countIn id s.bids + countIn id s.asks = 1 ↔
      (o.status = "Open" ∨ o.status = "PartiallyFilled"))

/-! ### Theorems: supporting lemmas and the claim theorems -/

/-- Claim C1 fails on the code (code bug): at `c1State` the depth endpoint
reports the ask level (price 50010, count 1) with total quantity 0, because
`udf_depth` sums the ask level's quantity from the bids index (`udf.rs` reads
`ob.bids.get(price)` inside the asks map), while the sum over the orders
resting at that price on the ask side — what the spec specifies — is 2. -/
theorem C1_ask_depth_reads_bid_index :
    applyEvents emptyState [.orderPlaced 1 .Sell 50010000000 2000000] = c1State ∧
    (udf_depth c1State none).2 = [(50010, 1, 0)] ∧
    levelQtyFromAsksSpec c1State 50010 = 2 ∧ (0 : ℚ) ≠ 2 := by
  refine ⟨?_, ?_, ?_, by norm_num⟩
  · show applyEvent emptyState (.orderPlaced 1 .Sell 50010000000 2000000) = c1State
    rw [applyEvent, add_order]
    norm_num [alookup, aupdate, emptyState, c1State, toDec, OrderSide.toStr,
      bucketAppend, bucketGet]
    decide
  · norm_num [udf_depth, get_ask_depth, get_bid_depth, sortAsc, sortDesc, c1State,
      insertAscBy, insertDescBy, levelQtyFromBids, bucketGet, alookup, satSub]
  · norm_num [levelQtyFromAsksSpec, c1State, bucketGet, alookup, satSub,
      List.filterMap_cons]

/-- Claim C3 fails as stated: after OrderPlaced(id 1, quantity 1000000 scaled,
i.e. 1) and OrderPartiallyFilled(id 1, filled_quantity 2000000 scaled, i.e. 2)
— a fill event reporting more than the order's quantity — the stored
filled_quantity (2) exceeds quantity (1) and the order-by-id query returns
remaining_quantity = −1 < 0: the subtraction in `orderbook_hand.rs` is plain,
not clamped to zero. -/
theorem C3_counterexample_negative_remaining :
    ((get_order 1 (applyEvents emptyState
        [.orderPlaced 1 .Buy 1000000 1000000,
         .orderPartiallyFilled 1 2000000 0])).map (fun x => x.2)) = some (-1) ∧
    ¬ (0 : ℚ) ≤ (-1 : ℚ) := by
  constructor
  · norm_num [applyEvents, applyEvent, add_order, update_order, get_order, exceptD,
      alookup, aupdate, emptyState, toDec, OrderSide.toStr, bucketAppend, bucketGet]
  · norm_num

/-- Claim C4 fails as stated: after OrderPlaced(id 1), OrderCancelled(id 1),
OrderPartiallyFilled(id 1, ...) — a partial fill applied to an already
cancelled order — the ingestion loop calls update_order, which sets status
back to PartiallyFilled without re-inserting the id into any price bucket, so
the order is "active" by status but rests on no side. -/
theorem C4_counterexample_partial_fill_after_cancel :
    ¬ InBookIffActive (applyEvents emptyState
      [.orderPlaced 1 .Buy 1000000 1000000, .orderCancelled 1,
       .orderPartiallyFilled 1 500000 500000]) := by
  intro h
  have hlk : alookup 1 (applyEvents emptyState
      [.orderPlaced 1 .Buy 1000000 1000000, .orderCancelled 1,
       .orderPartiallyFilled 1 500000 500000]).orders
      = some ⟨1, "Buy", 1, 1, 1/2, "PartiallyFilled"⟩ := by
    norm_num [applyEvents, applyEvent, add_order, cancel_order, update_order,
      exceptD, alookup, aupdate, aremove, emptyState, toDec, OrderSide.toStr,
      bucketAppend, bucketRemove, bucketGet]
  have hcnt : countIn 1 (applyEvents emptyState
      [.orderPlaced 1 .Buy 1000000 1000000, .orderCancelled 1,
       .orderPartiallyFilled 1 500000 500000]).bids
      + countIn 1 (applyEvents emptyState
      [.orderPlaced 1 .Buy 1000000 1000000, .orderCancelled 1,
       .orderPartiallyFilled 1 500000 500000]).asks = 0 := by
    norm_num [applyEvents, applyEvent, add_order, cancel_order, update_order,
      exceptD, alookup, aupdate, aremove, emptyState, toDec, OrderSide.toStr,
      bucketAppend, bucketRemove, bucketGet, countIn]
  have h1 := (h 1 _ hlk).mpr (Or.inr rfl)
  omega

theorem alookup_mem {k : κ} {v : α} {m : List (κ × α)}
    (h : alookup k m = some v) : (k, v) ∈ m := by
  induction m with
  | nil => simp [alookup] at h
  | cons e rest ih =>
    rw [alookup] at h
    split at h
    · next heq => cases h; exact heq ▸ List.mem_cons_self _ _
    · exact List.mem_cons_of_mem _ (ih h)

theorem alookup_aupdate_self (k : κ) (v : α) (m : List (κ × α)) :
    alookup k (aupdate k v m) = some v := by
  induction m with
  | nil => simp [alookup, aupdate]
  | cons e rest ih =>
    rw [aupdate]
    split
    · simp [alookup]
    · next hne => rw [alookup, if_neg hne]; exact ih

theorem alookup_aupdate_ne {k k' : κ} (v : α) (m : List (κ × α)) (h : k' ≠ k) :
    alookup k' (aupdate k v m) = alookup k' m := by
  induction m with
  | nil => simp [alookup, aupdate, if_neg (fun h' : k = k' => h h'.symm)]
  | cons e rest ih =>
    rw [aupdate]
    split
    · next heq =>
      rw [alookup, alookup, if_neg (fun h' : k = k' => h h'.symm), heq,
        if_neg (fun h' : k = k' => h h'.symm)]
    · rw [alookup, alookup]
      split
      · rfl
      · exact ih

theorem mem_alookup {k : κ} {v : α} {m : List (κ × α)}
    (hmem : (k, v) ∈ m) (hnd : (m.map Prod.fst).Nodup) : alookup k m = some v := by
  induction m with
  | nil => cases hmem
  | cons e rest ih =>
    rw [List.map_cons, List.nodup_cons] at hnd
    rcases List.mem_cons.mp hmem with h | h
    · rw [alookup, if_pos (congrArg Prod.fst h.symm)]
      cases h; rfl
    · have hne : e.1 ≠ k := by
        intro he
        exact hnd.1 (he ▸ List.mem_map_of_mem Prod.fst h)
      rw [alookup, if_neg hne]
      exact ih h hnd.2

theorem mem_aupdate {k : κ} {v : α} {e : κ × α} {m : List (κ × α)}
    (h : e ∈ aupdate k v m) : e = (k, v) ∨ e ∈ m := by
  induction m with
  | nil => simp [aupdate] at h; exact Or.inl h
  | cons e' rest ih =>
    rw [aupdate] at h
    split at h
    · rcases List.mem_cons.mp h with h | h
      · exact Or.inl h
      · exact Or.inr (List.mem_cons_of_mem _ h)
    · rcases List.mem_cons.mp h with h | h
      · exact Or.inr (h ▸ List.mem_cons_self _ _)
      · rcases ih h with h | h
        · exact Or.inl h
        · exact Or.inr (List.mem_cons_of_mem _ h)

theorem aremove_sublist (k : κ) (m : List (κ × α)) : (aremove k m).Sublist m := by
  induction m with
  | nil => simp [aremove]
  | cons e rest ih =>
    rw [aremove]
    split
    · exact (List.sublist_cons_self _ _)
    · exact ih.cons₂ e

theorem alookup_aremove_ne {k k' : κ} (m : List (κ × α)) (h : k' ≠ k) :
    alookup k' (aremove k m) = alookup k' m := by
  induction m with
  | nil => rfl
  | cons e rest ih =>
    rw [aremove]
    split
    · next heq => rw [alookup, heq, if_neg (fun h' : k = k' => h h'.symm)]
    · rw [alookup, alookup]
      split
      · rfl
      · exact ih

theorem alookup_eq_none {k : κ} {m : List (κ × α)} :
    alookup k m = none ↔ k ∉ m.map Prod.fst := by
  induction m with
  | nil => simp [alookup]
  | cons e rest ih =>
    rw [alookup]
    by_cases he : e.1 = k
    · simp [he]
    · rw [if_neg he, ih]
      simp only [List.map_cons, List.mem_cons]
      constructor
      · intro h hk
        rcases hk with hk | hk
        · exact he hk.symm
        · exact h hk
      · intro h hk
        exact h (Or.inr hk)

theorem alookup_aremove_self {k : κ} {m : List (κ × α)}
    (hnd : (m.map Prod.fst).Nodup) : alookup k (aremove k m) = none := by
  induction m with
  | nil => rfl
  | cons e rest ih =>
    rw [List.map_cons, List.nodup_cons] at hnd
    rw [aremove]
    split
    · next heq =>
      rw [alookup_eq_none]
      intro hk
      exact hnd.1 (heq ▸ hk)
    · next hne =>
      rw [alookup, if_neg hne]
      exact ih hnd.2

theorem keys_aupdate_isSome {k : κ} (v : α) {m : List (κ × α)}
    (h : (alookup k m).isSome) : (aupdate k v m).map Prod.fst = m.map Prod.fst := by
  induction m with
  | nil => simp [alookup] at h
  | cons e rest ih =>
    rw [alookup] at h
    rw [aupdate]
    split
    · next heq => simp [heq]
    · next hne =>
      rw [if_neg hne] at h
      simp [ih h]

theorem keys_aupdate_none {k : κ} (v : α) {m : List (κ × α)}
    (h : alookup k m = none) : (aupdate k v m).map Prod.fst = m.map Prod.fst ++ [k] := by
  induction m with
  | nil => simp [aupdate]
  | cons e rest ih =>
    rw [alookup] at h
    rw [aupdate]
    split at h
    · cases h
    · next hne => rw [if_neg hne]; simp [ih h]

theorem nodup_keys_aupdate {k : κ} (v : α) {m : List (κ × α)}
    (hnd : (m.map Prod.fst).Nodup) : ((aupdate k v m).map Prod.fst).Nodup := by
  cases ho : alookup k m with
  | some w => rw [keys_aupdate_isSome v (by simp [ho])]; exact hnd
  | none =>
    rw [keys_aupdate_none v ho]
    simp only [List.nodup_append, List.nodup_cons, List.nodup_nil]
    exact ⟨hnd, by simp, by simpa using fun hk => (alookup_eq_none.mp ho) hk⟩

theorem nodup_keys_aremove (k : κ) {m : List (κ × α)}
    (hnd : (m.map Prod.fst).Nodup) : ((aremove k m).map Prod.fst).Nodup :=
  ((aremove_sublist k m).map Prod.fst).nodup hnd

theorem alookup_isSome_aupdate {k k' : κ} (v : α) {m : List (κ × α)}
    (h : (alookup k' m).isSome) : (alookup k' (aupdate k v m)).isSome := by
  by_cases hk : k' = k
  · subst hk; rw [alookup_aupdate_self]; rfl
  · rwa [alookup_aupdate_ne v m hk]

theorem countIn_cons (id : ℕ) (e : ℚ × List ℕ) (m : List (ℚ × List ℕ)) :
    countIn id (e :: m) = e.2.count id + countIn id m := by
  simp [countIn]

theorem bucketGet_bucketAppend_self (p : ℚ) (id : ℕ) (m : List (ℚ × List ℕ)) :
    bucketGet p (bucketAppend p id m) = bucketGet p m ++ [id] := by
  rw [bucketAppend]
  show (alookup p (aupdate p (bucketGet p m ++ [id]) m)).getD [] = _
  rw [alookup_aupdate_self]
  rfl

theorem bucketGet_bucketAppend_ne {p p' : ℚ} (id : ℕ) (m : List (ℚ × List ℕ))
    (h : p' ≠ p) : bucketGet p' (bucketAppend p id m) = bucketGet p' m := by
  rw [bucketAppend]
  show (alookup p' (aupdate p (bucketGet p m ++ [id]) m)).getD [] = _
  rw [alookup_aupdate_ne _ _ h]
  rfl

theorem bucketGet_cons_eq {p : ℚ} {e : ℚ × List ℕ} (rest : List (ℚ × List ℕ))
    (he : e.1 = p) : bucketGet p (e :: rest) = e.2 := by
  simp [bucketGet, alookup, he]

theorem bucketGet_cons_ne {p : ℚ} {e : ℚ × List ℕ} (rest : List (ℚ × List ℕ))
    (he : ¬ e.1 = p) : bucketGet p (e :: rest) = bucketGet p rest := by
  simp [bucketGet, alookup, he]

theorem bucketAppend_cons_eq {p : ℚ} (id : ℕ) {e : ℚ × List ℕ} (rest : List (ℚ × List ℕ))
    (he : e.1 = p) : bucketAppend p id (e :: rest) = (p, e.2 ++ [id]) :: rest := by
  rw [bucketAppend, bucketGet_cons_eq rest he, aupdate, if_pos he]

theorem bucketAppend_cons_ne {p : ℚ} (id : ℕ) {e : ℚ × List ℕ} (rest : List (ℚ × List ℕ))
    (he : ¬ e.1 = p) : bucketAppend p id (e :: rest) = e :: bucketAppend p id rest := by
  rw [bucketAppend, bucketGet_cons_ne rest he, aupdate, if_neg he, bucketAppend]

theorem bucketRemove_cons_eq {p : ℚ} (id : ℕ) {e : ℚ × List ℕ} (rest : List (ℚ × List ℕ))
    (he : e.1 = p) :
    bucketRemove p id (e :: rest) =
      if (e.2.filter (fun x => x ≠ id)).isEmpty then rest
      else (p, e.2.filter (fun x => x ≠ id)) :: rest := by
  rw [bucketRemove, bucketGet_cons_eq rest he]
  split
  · rw [aremove, if_pos he]
  · rw [aupdate, if_pos he]

theorem bucketRemove_cons_ne {p : ℚ} (id : ℕ) {e : ℚ × List ℕ} (rest : List (ℚ × List ℕ))
    (he : ¬ e.1 = p) : bucketRemove p id (e :: rest) = e :: bucketRemove p id rest := by
  rw [bucketRemove, bucketGet_cons_ne rest he, bucketRemove]
  split
  · rw [aremove, if_neg he]
  · rw [aupdate, if_neg he]

theorem countIn_bucketAppend (id id' : ℕ) (p : ℚ) (m : List (ℚ × List ℕ)) :
    countIn id (bucketAppend p id' m) =
      countIn id m + (if id' = id then 1 else 0) := by
  induction m with
  | nil =>
    rw [bucketAppend]
    simp [bucketGet, alookup, aupdate, countIn, List.count_singleton]
  | cons e rest ih =>
    by_cases he : e.1 = p
    · rw [bucketAppend_cons_eq id' rest he, countIn_cons, countIn_cons]
      simp only [List.count_append, List.count_singleton, beq_iff_eq]
      split <;> omega
    · rw [bucketAppend_cons_ne id' rest he, countIn_cons, countIn_cons, ih]
      omega

theorem count_bucketGet_le_countIn (id : ℕ) (p : ℚ) (m : List (ℚ × List ℕ)) :
    (bucketGet p m).count id ≤ countIn id m := by
  induction m with
  | nil => simp [bucketGet, alookup]
  | cons e rest ih =>
    rw [countIn_cons]
    by_cases he : e.1 = p
    · rw [bucketGet_cons_eq rest he]
      omega
    · rw [bucketGet_cons_ne rest he]
      omega

theorem countIn_eq_zero {id : ℕ} {m : List (ℚ × List ℕ)} :
    countIn id m = 0 ↔ ∀ e ∈ m, id ∉ e.2 := by
  induction m with
  | nil => simp [countIn]
  | cons e rest ih =>
    rw [countIn_cons, Nat.add_eq_zero]
    simp only [List.mem_cons]
    constructor
    · rintro ⟨h1, h2⟩ x hx
      rcases hx with hx | hx
      · subst hx; exact List.count_eq_zero.mp h1
      · exact ih.mp h2 x hx
    · intro h
      exact ⟨List.count_eq_zero.mpr (h e (Or.inl rfl)),
        ih.mpr (fun x hx => h x (Or.inr hx))⟩

theorem count_filter_ne_self (id : ℕ) (l : List ℕ) :
    (l.filter (fun x => x ≠ id)).count id = 0 := by
  rw [List.count_eq_zero]
  intro h
  have := (List.mem_filter.mp h).2
  simp at this

theorem count_filter_ne_other {id id' : ℕ} (l : List ℕ) (h : id ≠ id') :
    (l.filter (fun x => x ≠ id')).count id = l.count id := by
  apply List.count_filter
  simp [h]

theorem countIn_bucketRemove (id id' : ℕ) (p : ℚ) (m : List (ℚ × List ℕ)) :
    countIn id (bucketRemove p id' m) + (bucketGet p m).count id =
      countIn id m + ((bucketGet p m).filter (fun x => x ≠ id')).count id := by
  induction m with
  | nil => simp [bucketRemove, bucketGet, alookup, aremove, aupdate, countIn]
  | cons e rest ih =>
    by_cases he : e.1 = p
    · rw [bucketRemove_cons_eq id' rest he, bucketGet_cons_eq rest he]
      split
      · next hemp =>
        have : (e.2.filter (fun x => x ≠ id')).count id = 0 := by
          rw [List.isEmpty_iff] at hemp
          rw [hemp]
          rfl
        rw [countIn_cons]
        omega
      · rw [countIn_cons, countIn_cons]
        dsimp only
        omega
    · rw [bucketRemove_cons_ne id' rest he, bucketGet_cons_ne rest he,
        countIn_cons, countIn_cons]
      omega

theorem bucketGet_bucketRemove_self {p : ℚ} (id : ℕ) {m : List (ℚ × List ℕ)}
    (hnd : (m.map Prod.fst).Nodup) :
    bucketGet p (bucketRemove p id m) = (bucketGet p m).filter (fun x => x ≠ id) := by
  rw [bucketRemove]
  split
  · next hemp =>
    rw [List.isEmpty_iff] at hemp
    rw [hemp, bucketGet, alookup_aremove_self hnd]
    rfl
  · rw [bucketGet, alookup_aupdate_self]
    rfl

theorem bucketGet_bucketRemove_ne {p p' : ℚ} (id : ℕ) (m : List (ℚ × List ℕ))
    (h : p' ≠ p) : bucketGet p' (bucketRemove p id m) = bucketGet p' m := by
  rw [bucketRemove]
  split
  · rw [bucketGet, alookup_aremove_ne m h]
    rfl
  · rw [bucketGet, alookup_aupdate_ne _ m h]
    rfl

theorem mem_bucketAppend {e : ℚ × List ℕ} {p : ℚ} {id : ℕ} {m : List (ℚ × List ℕ)}
    (h : e ∈ bucketAppend p id m) : e = (p, bucketGet p m ++ [id]) ∨ e ∈ m :=
  mem_aupdate h

theorem mem_bucketRemove {e : ℚ × List ℕ} {p : ℚ} {id : ℕ} {m : List (ℚ × List ℕ)}
    (h : e ∈ bucketRemove p id m) :
    e = (p, (bucketGet p m).filter (fun x => x ≠ id)) ∨ e ∈ m := by
  rw [bucketRemove] at h
  split at h
  · exact Or.inr ((aremove_sublist p m).subset h)
  · exact mem_aupdate h

theorem nodup_keys_bucketAppend (p : ℚ) (id : ℕ) {m : List (ℚ × List ℕ)}
    (hnd : (m.map Prod.fst).Nodup) : ((bucketAppend p id m).map Prod.fst).Nodup :=
  nodup_keys_aupdate _ hnd

theorem nodup_keys_bucketRemove (p : ℚ) (id : ℕ) {m : List (ℚ × List ℕ)}
    (hnd : (m.map Prod.fst).Nodup) : ((bucketRemove p id m).map Prod.fst).Nodup := by
  rw [bucketRemove]
  split
  · exact nodup_keys_aremove p hnd
  · exact nodup_keys_aupdate _ hnd

theorem count_bucketGet_bucketAppend_other {k id : ℕ} (p p' : ℚ)
    (m : List (ℚ × List ℕ)) (h : k ≠ id) :
    (bucketGet p' (bucketAppend p id m)).count k = (bucketGet p' m).count k := by
  by_cases hp : p' = p
  · subst hp
    rw [bucketGet_bucketAppend_self, List.count_append, List.count_singleton]
    have hik : ¬ id = k := fun h' => h h'.symm
    simp [hik]
  · rw [bucketGet_bucketAppend_ne id m hp]

theorem count_bucketGet_bucketRemove_other {k id : ℕ} (p p' : ℚ)
    {m : List (ℚ × List ℕ)} (h : k ≠ id) (hnd : (m.map Prod.fst).Nodup) :
    (bucketGet p' (bucketRemove p id m)).count k = (bucketGet p' m).count k := by
  by_cases hp : p' = p
  · subst hp
    rw [bucketGet_bucketRemove_self id hnd, count_filter_ne_other _ h]
  · rw [bucketGet_bucketRemove_ne id m hp]

theorem countIn_bucketRemove_other {k id : ℕ} (p : ℚ) (m : List (ℚ × List ℕ))
    (h : k ≠ id) : countIn k (bucketRemove p id m) = countIn k m := by
  have heq := countIn_bucketRemove k id p m
  rw [count_filter_ne_other _ h] at heq
  omega

theorem countIn_bucketRemove_self (id : ℕ) (p : ℚ) (m : List (ℚ × List ℕ)) :
    countIn id (bucketRemove p id m) + (bucketGet p m).count id = countIn id m := by
  have heq := countIn_bucketRemove id id p m
  rw [count_filter_ne_self] at heq
  omega

theorem WF_emptyState : WF emptyState := by decide

theorem mem_of_mem_bucketGet {i : ℕ} {p : ℚ} {m : List (ℚ × List ℕ)}
    (h : i ∈ bucketGet p m) : ∃ e ∈ m, i ∈ e.2 := by
  rw [bucketGet] at h
  cases hl : alookup p m with
  | none => rw [hl] at h; cases h
  | some b => rw [hl] at h; exact ⟨(p, b), alookup_mem hl, h⟩

theorem mem_aupdate_nodup {k : κ} {v : α} {e : κ × α} {m : List (κ × α)}
    (hnd : (m.map Prod.fst).Nodup) (h : e ∈ aupdate k v m) :
    e = (k, v) ∨ (e ∈ m ∧ e.1 ≠ k) := by
  induction m with
  | nil => simp [aupdate] at h; exact Or.inl h
  | cons a rest ih =>
    rw [List.map_cons, List.nodup_cons] at hnd
    rw [aupdate] at h
    split at h
    · next ha =>
      rcases List.mem_cons.mp h with h | h
      · exact Or.inl h
      · refine Or.inr ⟨List.mem_cons_of_mem _ h, fun hk => ?_⟩
        exact hnd.1 (ha ▸ hk ▸ List.mem_map_of_mem Prod.fst h)
    · next ha =>
      rcases List.mem_cons.mp h with h | h
      · exact Or.inr ⟨h ▸ List.mem_cons_self _ _, h ▸ ha⟩
      · rcases ih hnd.2 h with h' | h'
        · exact Or.inl h'
        · exact Or.inr ⟨List.mem_cons_of_mem _ h'.1, h'.2⟩

theorem mem_bucketRemove' {e : ℚ × List ℕ} {p : ℚ} {id : ℕ} {m : List (ℚ × List ℕ)}
    (h : e ∈ bucketRemove p id m) :
    (e = (p, (bucketGet p m).filter (fun x => x ≠ id)) ∧
      ¬ ((bucketGet p m).filter (fun x => x ≠ id)).isEmpty) ∨ e ∈ m := by
  rw [bucketRemove] at h
  split at h
  · exact Or.inr ((aremove_sublist p m).subset h)
  · next hemp =>
    rcases mem_aupdate h with h | h
    · exact Or.inl ⟨h, hemp⟩
    · exact Or.inr h

theorem cancel_order_none {id : ℕ} {s : OrderbookState}
    (hlk : alookup id s.orders = none) : cancel_order id s = .error .notFound := by
  rw [cancel_order, hlk]

theorem cancel_order_some {id : ℕ} {s : OrderbookState} {o : OrderInfo}
    (hlk : alookup id s.orders = some o) :
    cancel_order id s = .ok
      { orders := aupdate id { o with status := "Cancelled" } s.orders
        bids := if o.side = "Buy" then bucketRemove o.price id s.bids else s.bids
        asks := if o.side = "Buy" then s.asks else bucketRemove o.price id s.asks } := by
  rw [cancel_order, hlk]

theorem update_order_none {id : ℕ} {f : ℚ} {st : String} {s : OrderbookState}
    (hlk : alookup id s.orders = none) : update_order id f st s = .error .notFound := by
  rw [update_order, hlk]

theorem update_order_some {id : ℕ} {f : ℚ} {st : String} {s : OrderbookState}
    {o : OrderInfo} (hlk : alookup id s.orders = some o) :
    update_order id f st s = .ok
      { orders := aupdate id { o with filled_quantity := f, status := st } s.orders
        bids := if st = "Filled" ∧ o.side = "Buy" then bucketRemove o.price id s.bids
                else s.bids
        asks := if st = "Filled" ∧ ¬ o.side = "Buy" then bucketRemove o.price id s.asks
                else s.asks } := by
  rw [update_order, hlk]

theorem toDec_nonneg (x : ℕ) : 0 ≤ toDec x := by
  unfold toDec
  positivity

theorem qtyOK_applyEvent {s : OrderbookState} {e : Event} (h : ordersQtyOK s)
    (hg : evFillGuard s e = true) : ordersQtyOK (applyEvent s e) := by
  cases e with
  | orderPlaced id side p q =>
    rw [applyEvent, add_order]
    split
    · exact h
    · intro e he
      rcases mem_aupdate he with he' | he'
      · rw [he']
        exact ⟨toDec_nonneg q, le_refl _, toDec_nonneg q⟩
      · exact h e he'
  | orderCancelled id =>
    rw [applyEvent, cancel_order]
    cases hlk : alookup id s.orders with
    | none => exact h
    | some o =>
      rw [exceptD]
      intro e he
      rcases mem_aupdate he with he' | he'
      · rw [he']
        exact h (id, o) (alookup_mem hlk)
      · exact h e he'
  | orderFilled id =>
    rw [applyEvent]
    cases hlk : alookup id s.orders with
    | none => exact h
    | some o =>
      show ordersQtyOK (exceptD s (update_order id o.quantity "Filled" s))
      rw [update_order_some hlk, exceptD]
      intro e he
      rcases mem_aupdate he with he' | he'
      · rw [he']
        obtain ⟨h1, _, _⟩ := h (id, o) (alookup_mem hlk)
        exact ⟨h1, h1, le_refl _⟩
      · exact h e he'
  | orderPartiallyFilled id f r =>
    rw [applyEvent]
    cases hlk : alookup id s.orders with
    | none =>
      rw [update_order_none hlk, exceptD]
      exact h
    | some o =>
      rw [update_order_some hlk, exceptD]
      intro e he
      rcases mem_aupdate he with he' | he'
      · rw [he']
        rw [evFillGuard, hlk] at hg
        obtain ⟨h1, _, _⟩ := h (id, o) (alookup_mem hlk)
        exact ⟨h1, toDec_nonneg f, of_decide_eq_true hg⟩
      · exact h e he'
  | tradeExecuted sym p q t => exact h

theorem qtyOK_applyEvents {es : List Event} {s : OrderbookState} (h : ordersQtyOK s)
    (hg : seqFillGuard s es = true) : ordersQtyOK (applyEvents s es) := by
  induction es generalizing s with
  | nil => exact h
  | cons e es ih =>
    rw [seqFillGuard, Bool.and_eq_true] at hg
    exact ih (qtyOK_applyEvent h hg.1) hg.2

theorem processTradeTF_labels {sym : String} {price qty : ℚ} {t : ℕ} {tf : String}
    {w : ℕ} {agg : CandleAggregator} :
    ∀ u ∈ (processTradeTF sym price qty t tf w agg).2,
      u.symbol = sym ∧ u.timeframe = tf := by
  intro u hu
  rw [processTradeTF] at hu
  split at hu
  · rcases List.mem_singleton.mp hu with rfl
    exact ⟨rfl, rfl⟩
  · split at hu
    · rcases List.mem_cons.mp hu with h | h
      · rw [h]; exact ⟨rfl, rfl⟩
      · rcases List.mem_singleton.mp h with rfl
        exact ⟨rfl, rfl⟩
    · rcases List.mem_singleton.mp hu with rfl
      exact ⟨rfl, rfl⟩

theorem processTradeTF_other_key {sym : String} {price qty : ℚ} {t : ℕ} {tf : String}
    {w : ℕ} {agg : CandleAggregator} {key : String × String} (hne : key ≠ (sym, tf)) :
    alookup key ((processTradeTF sym price qty t tf w agg).1).current
      = alookup key agg.current := by
  rw [processTradeTF]
  split
  · exact alookup_aupdate_ne _ _ hne
  · split
    · exact alookup_aupdate_ne _ _ hne
    · exact alookup_aupdate_ne _ _ hne

theorem processTradeTF_updates_congr {sym : String} {price qty : ℚ} {t : ℕ}
    {tf : String} {w : ℕ} {agg1 agg : CandleAggregator}
    (h : alookup (sym, tf) agg1.current = alookup (sym, tf) agg.current) :
    (processTradeTF sym price qty t tf w agg1).2
      = (processTradeTF sym price qty t tf w agg).2 := by
  rw [processTradeTF, processTradeTF, h]
  cases alookup (sym, tf) agg.current with
  | none => rfl
  | some bar =>
    dsimp only
    split
    · rfl
    · rfl

theorem processTimeframes_labels {sym : String} {price qty : ℚ} {t : ℕ}
    {tfs : List (String × ℕ)} {agg : CandleAggregator} :
    ∀ u ∈ (processTimeframes sym price qty t tfs agg).2,
      u.timeframe ∈ tfs.map Prod.fst := by
  induction tfs generalizing agg with
  | nil => intro u hu; cases hu
  | cons hd rest ih =>
    intro u hu
    rw [processTimeframes] at hu
    rcases List.mem_append.mp hu with h | h
    · rw [List.map_cons]
      exact List.mem_cons.mpr (Or.inl (processTradeTF_labels u h).2)
    · rw [List.map_cons]
      exact List.mem_cons.mpr (Or.inr (ih u h))

theorem listMax_eq_none {l : List ℚ} : listMax l = none ↔ l = [] := by
  cases l with
  | nil => simp [listMax]
  | cons x xs =>
    rw [listMax]
    cases listMax xs <;> simp

theorem listMax_mem {l : List ℚ} {m : ℚ} (h : listMax l = some m) : m ∈ l := by
  induction l generalizing m with
  | nil => cases h
  | cons x xs ih =>
    rw [listMax] at h
    cases hx : listMax xs with
    | none =>
      rw [hx] at h
      cases h
      exact List.mem_cons_self _ _
    | some m' =>
      rw [hx] at h
      cases h
      rcases max_choice x m' with hc | hc
      · rw [hc]; exact List.mem_cons_self _ _
      · rw [hc]; exact List.mem_cons_of_mem _ (ih hx)

theorem le_listMax {l : List ℚ} {m : ℚ} (h : listMax l = some m) :
    ∀ x ∈ l, x ≤ m := by
  induction l generalizing m with
  | nil => intro x hx; cases hx
  | cons y ys ih =>
    rw [listMax] at h
    intro x hx
    cases hy : listMax ys with
    | none =>
      rw [hy] at h
      cases h
      rcases List.mem_cons.mp hx with h' | h'
      · exact h' ▸ le_refl _
      · rw [listMax_eq_none.mp hy] at h'
        cases h'
    | some m' =>
      rw [hy] at h
      cases h
      rcases List.mem_cons.mp hx with h' | h'
      · exact h' ▸ le_max_left _ _
      · exact le_trans (ih hy x h') (le_max_right _ _)

theorem listMin_eq_none {l : List ℚ} : listMin l = none ↔ l = [] := by
  cases l with
  | nil => simp [listMin]
  | cons x xs =>
    rw [listMin]
    cases listMin xs <;> simp

theorem listMin_mem {l : List ℚ} {m : ℚ} (h : listMin l = some m) : m ∈ l := by
  induction l generalizing m with
  | nil => cases h
  | cons x xs ih =>
    rw [listMin] at h
    cases hx : listMin xs with
    | none =>
      rw [hx] at h
      cases h
      exact List.mem_cons_self _ _
    | some m' =>
      rw [hx] at h
      cases h
      rcases min_choice x m' with hc | hc
      · rw [hc]; exact List.mem_cons_self _ _
      · rw [hc]; exact List.mem_cons_of_mem _ (ih hx)

theorem listMin_le {l : List ℚ} {m : ℚ} (h : listMin l = some m) :
    ∀ x ∈ l, m ≤ x := by
  induction l generalizing m with
  | nil => intro x hx; cases hx
  | cons y ys ih =>
    rw [listMin] at h
    intro x hx
    cases hy : listMin ys with
    | none =>
      rw [hy] at h
      cases h
      rcases List.mem_cons.mp hx with h' | h'
      · exact h' ▸ le_refl _
      · rw [listMin_eq_none.mp hy] at h'
        cases h'
    | some m' =>
      rw [hy] at h
      cases h
      rcases List.mem_cons.mp hx with h' | h'
      · exact h' ▸ min_le_left _ _
      · exact le_trans (min_le_right _ _) (ih hy x h')

theorem restingCount_eq_zero {m : List (ℚ × List ℕ)}
    (hne : ∀ e ∈ m, e.2 ≠ []) : restingCount m = 0 ↔ m = [] := by
  cases m with
  | nil => simp [restingCount]
  | cons e rest =>
    simp only [restingCount, List.map_cons, List.sum_cons]
    constructor
    · intro h
      have h1 : e.2.length = 0 := by omega
      exact absurd (List.eq_nil_of_length_eq_zero h1) (hne e (List.mem_cons_self _ _))
    · intro h
      cases h

theorem not_mem_bucketGet_of_countIn_zero {id : ℕ} {m : List (ℚ × List ℕ)}
    (h : countIn id m = 0) (p : ℚ) : id ∉ bucketGet p m := by
  intro hmem
  obtain ⟨e, he, hie⟩ := mem_of_mem_bucketGet hmem
  exact countIn_eq_zero.mp h e he hie

theorem insertDescBy_perm (e : ℚ × List ℕ) (l : List (ℚ × List ℕ)) :
    (insertDescBy e l).Perm (e :: l) := by
  induction l with
  | nil => exact List.Perm.refl _
  | cons x xs ih =>
    rw [insertDescBy]
    split
    · exact List.Perm.refl _
    · exact (ih.cons x).trans (List.Perm.swap e x xs)

theorem insertAscBy_perm (e : ℚ × List ℕ) (l : List (ℚ × List ℕ)) :
    (insertAscBy e l).Perm (e :: l) := by
  induction l with
  | nil => exact List.Perm.refl _
  | cons x xs ih =>
    rw [insertAscBy]
    split
    · exact List.Perm.refl _
    · exact (ih.cons x).trans (List.Perm.swap e x xs)

theorem sortDesc_perm (m : List (ℚ × List ℕ)) : (sortDesc m).Perm m := by
  induction m with
  | nil => exact List.Perm.refl _
  | cons e rest ih =>
    rw [sortDesc, List.foldr_cons]
    exact (insertDescBy_perm e _).trans (ih.cons e)

theorem sortAsc_perm (m : List (ℚ × List ℕ)) : (sortAsc m).Perm m := by
  induction m with
  | nil => exact List.Perm.refl _
  | cons e rest ih =>
    rw [sortAsc, List.foldr_cons]
    exact (insertAscBy_perm e _).trans (ih.cons e)

theorem mem_get_ask_depth {s : OrderbookState} {e : ℚ × List ℕ} {n : ℕ}
    (he : e ∈ s.asks) (hn : s.asks.length ≤ n) :
    (e.1, e.2.length) ∈ get_ask_depth s n := by
  rw [get_ask_depth, List.take_of_length_le (by rw [(sortAsc_perm s.asks).length_eq]; exact hn)]
  exact List.mem_map_of_mem _ ((sortAsc_perm s.asks).mem_iff.mpr he)

/-- An id that is not in the order map occurs in no bucket of a side whose
resting ids are all mapped. -/
theorem countIn_zero_of_unmapped {id : ℕ} {orders : List (ℕ × OrderInfo)}
    {m : List (ℚ × List ℕ)}
    (hmap : ∀ e ∈ m, ∀ i ∈ e.2, (alookup i orders).isSome)
    (hnone : alookup id orders = none) : countIn id m = 0 := by
  rw [countIn_eq_zero]
  intro e he hid
  have := hmap e he id hid
  rw [hnone] at this
  cases this

/-- Replacing the stored order `id` (same side and price) with a terminal
status and removing it from its side/price bucket preserves well-formedness. -/
theorem WF_setOrder_remove {s : OrderbookState} {id : ℕ} {o o' : OrderInfo}
    (hWF : WF s) (hlk : alookup id s.orders = some o)
    (hside' : o'.side = o.side)
    (hterm : ¬ activeStatus o'.status) :
    WF { orders := aupdate id o' s.orders
         bids := if o.side = "Buy" then bucketRemove o.price id s.bids else s.bids
         asks := if o.side = "Buy" then s.asks else bucketRemove o.price id s.asks } := by
  obtain ⟨hOn, hBn, hAn, hBne, hAne, hBm, hAm, hOw⟩ := hWF
  obtain ⟨hsd, hloc⟩ := hOw (id, o) (alookup_mem hlk)
  set bids' := if o.side = "Buy" then bucketRemove o.price id s.bids else s.bids with hbids
  set asks' := if o.side = "Buy" then s.asks else bucketRemove o.price id s.asks with hasks
  have hcb : ∀ k, k ≠ id → countIn k bids' = countIn k s.bids := by
    intro k hk
    rw [hbids]
    split
    · exact countIn_bucketRemove_other _ _ hk
    · rfl
  have hca : ∀ k, k ≠ id → countIn k asks' = countIn k s.asks := by
    intro k hk
    rw [hasks]
    split
    · rfl
    · exact countIn_bucketRemove_other _ _ hk
  have hgb : ∀ k, k ≠ id → ∀ p', (bucketGet p' bids').count k = (bucketGet p' s.bids).count k := by
    intro k hk p'
    rw [hbids]
    split
    · exact count_bucketGet_bucketRemove_other _ _ hk hBn
    · rfl
  have hga : ∀ k, k ≠ id → ∀ p', (bucketGet p' asks').count k = (bucketGet p' s.asks).count k := by
    intro k hk p'
    rw [hasks]
    split
    · rfl
    · exact count_bucketGet_bucketRemove_other _ _ hk hAn
  -- after the removal the id rests nowhere
  have hzb : countIn id bids' = 0 ∧ countIn id asks' = 0 := by
    dsimp only at hloc
    split at hloc
    · next hact =>
      obtain ⟨l1, l2, l3⟩ := hloc
      rcases hsd with hb | hb
      · rw [ownSide, if_pos hb] at l1 l2
        rw [othSide, if_pos hb] at l3
        have hrm := countIn_bucketRemove_self id o.price s.bids
        constructor
        · rw [hbids, if_pos hb]
          omega
        · rw [hasks, if_pos hb]
          exact l3
      · have hx : ¬ (o.side = "Buy") := by rw [hb]; decide
        rw [ownSide, if_neg hx] at l1 l2
        rw [othSide, if_neg hx] at l3
        have hrm := countIn_bucketRemove_self id o.price s.asks
        constructor
        · rw [hbids, if_neg hx]
          exact l3
        · rw [hasks, if_neg hx]
          omega
    · next hact =>
      obtain ⟨l1, l2⟩ := hloc
      have hrmB := countIn_bucketRemove_self id o.price s.bids
      have hrmA := countIn_bucketRemove_self id o.price s.asks
      constructor
      · rw [hbids]
        split
        · omega
        · exact l1
      · rw [hasks]
        split
        · exact l2
        · omega
  refine ⟨nodup_keys_aupdate o' hOn, ?_, ?_, ?_, ?_, ?_, ?_, ?_⟩
  · rw [hbids]
    split
    · exact nodup_keys_bucketRemove _ _ hBn
    · exact hBn
  · rw [hasks]
    split
    · exact hAn
    · exact nodup_keys_bucketRemove _ _ hAn
  · rw [hbids]
    split
    · intro e he
      rcases mem_bucketRemove' he with ⟨h1, h2⟩ | h
      · rw [h1]
        intro hc
        rw [List.isEmpty_iff] at h2
        exact h2 hc
      · exact hBne e h
    · exact hBne
  · rw [hasks]
    split
    · exact hAne
    · intro e he
      rcases mem_bucketRemove' he with ⟨h1, h2⟩ | h
      · rw [h1]
        intro hc
        rw [List.isEmpty_iff] at h2
        exact h2 hc
      · exact hAne e h
  · rw [hbids]
    have base : ∀ e ∈ s.bids, ∀ i ∈ e.2, (alookup i (aupdate id o' s.orders)).isSome :=
      fun e he i hi => alookup_isSome_aupdate o' (hBm e he i hi)
    split
    · intro e he i hi
      rcases mem_bucketRemove' he with ⟨h1, _⟩ | h
      · rw [h1] at hi
        obtain ⟨e', he', hie'⟩ := mem_of_mem_bucketGet (List.mem_of_mem_filter hi)
        exact alookup_isSome_aupdate o' (hBm e' he' i hie')
      · exact base e h i hi
    · exact base
  · rw [hasks]
    have base : ∀ e ∈ s.asks, ∀ i ∈ e.2, (alookup i (aupdate id o' s.orders)).isSome :=
      fun e he i hi => alookup_isSome_aupdate o' (hAm e he i hi)
    split
    · exact base
    · intro e he i hi
      rcases mem_bucketRemove' he with ⟨h1, _⟩ | h
      · rw [h1] at hi
        obtain ⟨e', he', hie'⟩ := mem_of_mem_bucketGet (List.mem_of_mem_filter hi)
        exact alookup_isSome_aupdate o' (hAm e' he' i hie')
      · exact base e h i hi
  · intro e he
    rcases mem_aupdate_nodup hOn he with h | ⟨h, hkid⟩
    · -- the rewritten order is terminal and rests nowhere
      rw [h]
      refine ⟨hside' ▸ hsd, ?_⟩
      dsimp only
      rw [if_neg hterm]
      exact hzb
    · obtain ⟨hsd2, hloc2⟩ := hOw e h
      refine ⟨hsd2, ?_⟩
      dsimp only [ownSide, othSide] at hloc2 ⊢
      split
      · next hact =>
        rw [if_pos hact] at hloc2
        obtain ⟨l1, l2, l3⟩ := hloc2
        rcases hsd2 with hb | hb
        · simp only [hb, if_pos] at l1 l2 l3 ⊢
          exact ⟨by rw [hgb e.1 hkid]; exact l1, by rw [hcb e.1 hkid]; exact l2,
            by rw [hca e.1 hkid]; exact l3⟩
        · have hx : ¬ ("Sell" : String) = "Buy" := by decide
          simp only [hb, if_neg hx] at l1 l2 l3 ⊢
          exact ⟨by rw [hga e.1 hkid]; exact l1, by rw [hca e.1 hkid]; exact l2,
            by rw [hcb e.1 hkid]; exact l3⟩
      · next hact =>
        rw [if_neg hact] at hloc2
        exact ⟨by rw [hcb e.1 hkid]; exact hloc2.1, by rw [hca e.1 hkid]; exact hloc2.2⟩

/-- Replacing the stored order `id` (same side and price, both statuses
active) without touching the buckets preserves well-formedness. -/
theorem WF_setOrder_keep {s : OrderbookState} {id : ℕ} {o o' : OrderInfo}
    (hWF : WF s) (hlk : alookup id s.orders = some o)
    (hside' : o'.side = o.side) (hprice' : o'.price = o.price)
    (hact' : activeStatus o'.status) (hact : activeStatus o.status) :
    WF { orders := aupdate id o' s.orders, bids := s.bids, asks := s.asks } := by
  obtain ⟨hOn, hBn, hAn, hBne, hAne, hBm, hAm, hOw⟩ := hWF
  obtain ⟨hsd, hloc⟩ := hOw (id, o) (alookup_mem hlk)
  refine ⟨nodup_keys_aupdate o' hOn, hBn, hAn, hBne, hAne,
    fun e he i hi => alookup_isSome_aupdate o' (hBm e he i hi),
    fun e he i hi => alookup_isSome_aupdate o' (hAm e he i hi), ?_⟩
  intro e he
  rcases mem_aupdate_nodup hOn he with h | ⟨h, _⟩
  · rw [h]
    refine ⟨hside' ▸ hsd, ?_⟩
    dsimp only at hloc ⊢
    rw [if_pos hact']
    rw [if_pos hact] at hloc
    obtain ⟨l1, l2, l3⟩ := hloc
    have hown : ownSide o' { orders := aupdate id o' s.orders, bids := s.bids, asks := s.asks }
        = ownSide o s := by
      rw [ownSide, ownSide, hside']
    have hoth : othSide o' { orders := aupdate id o' s.orders, bids := s.bids, asks := s.asks }
        = othSide o s := by
      rw [othSide, othSide, hside']
    rw [hown, hoth, hprice']
    exact ⟨l1, l2, l3⟩
  · exact hOw e h

/-- `cancel_order` preserves well-formedness. -/
theorem WF_cancel_order {id : ℕ} {s s' : OrderbookState} (hWF : WF s)
    (hok : cancel_order id s = .ok s') : WF s' := by
  rw [cancel_order] at hok
  cases hlk : alookup id s.orders with
  | none => rw [hlk] at hok; cases hok
  | some o =>
    rw [hlk] at hok
    cases hok
    exact WF_setOrder_remove hWF hlk rfl (show ¬ activeStatus "Cancelled" by decide)

/-- `update_order` with status Filled preserves well-formedness. -/
theorem WF_update_order_filled {id : ℕ} {f : ℚ} {s s' : OrderbookState} (hWF : WF s)
    (hok : update_order id f "Filled" s = .ok s') : WF s' := by
  rw [update_order] at hok
  cases hlk : alookup id s.orders with
  | none => rw [hlk] at hok; cases hok
  | some o =>
    rw [hlk] at hok
    cases hok
    have hc1 : ∀ (X Y : List (ℚ × List ℕ)),
        (if ("Filled" : String) = "Filled" ∧ o.side = "Buy" then X else Y)
          = (if o.side = "Buy" then X else Y) := by
      intro X Y
      by_cases hb : o.side = "Buy"
      · rw [if_pos ⟨rfl, hb⟩, if_pos hb]
      · rw [if_neg (fun hh => hb hh.2), if_neg hb]
    have hc2 : ∀ (X Y : List (ℚ × List ℕ)),
        (if ("Filled" : String) = "Filled" ∧ ¬ o.side = "Buy" then X else Y)
          = (if o.side = "Buy" then Y else X) := by
      intro X Y
      by_cases hb : o.side = "Buy"
      · rw [if_neg (fun hh => hh.2 hb), if_pos hb]
      · rw [if_pos ⟨rfl, hb⟩, if_neg hb]
    rw [hc1, hc2]
    exact WF_setOrder_remove hWF hlk rfl (show ¬ activeStatus "Filled" by decide)

/-- `update_order` with status PartiallyFilled preserves well-formedness,
provided the target order is still resting (Open or PartiallyFilled). -/
theorem WF_update_order_partial {id : ℕ} {f : ℚ} {s s' : OrderbookState} (hWF : WF s)
    (hok : update_order id f "PartiallyFilled" s = .ok s')
    (hguard : ∀ o, alookup id s.orders = some o → activeStatus o.status) : WF s' := by
  rw [update_order] at hok
  cases hlk : alookup id s.orders with
  | none => rw [hlk] at hok; cases hok
  | some o =>
    rw [hlk] at hok
    cases hok
    have hne : ¬ (("PartiallyFilled" : String) = "Filled") := by decide
    rw [if_neg (fun hh => hne hh.1), if_neg (fun hh => hne hh.1)]
    exact WF_setOrder_keep hWF hlk rfl rfl
      (show activeStatus "PartiallyFilled" by decide) (hguard o hlk)

/-- Filtering the trade's emitted updates down to one configured timeframe
recovers exactly the per-timeframe step's output on the incoming aggregator
state. -/
theorem processTimeframes_filter {sym : String} {price qty : ℚ} {t : ℕ}
    {tfs : List (String × ℕ)} {tf : String} {w : ℕ} {agg : CandleAggregator}
    (hnd : (tfs.map Prod.fst).Nodup) (hmem : (tf, w) ∈ tfs) :
    ((processTimeframes sym price qty t tfs agg).2).filter
        (fun u => decide (u.timeframe = tf))
      = (processTradeTF sym price qty t tf w agg).2 := by
  induction tfs generalizing agg with
  | nil => cases hmem
  | cons hd rest ih =>
    rw [List.map_cons, List.nodup_cons] at hnd
    rw [processTimeframes, List.filter_append]
    rcases List.mem_cons.mp hmem with h | h
    · -- the head timeframe is the one we keep
      cases h
      have h1 : ((processTradeTF sym price qty t tf w agg).2).filter
          (fun u => decide (u.timeframe = tf))
            = (processTradeTF sym price qty t tf w agg).2 :=
        List.filter_eq_self.mpr
          (fun u hu => decide_eq_true (processTradeTF_labels u hu).2)
      have h2 : ((processTimeframes sym price qty t rest
          ((processTradeTF sym price qty t tf w agg).1)).2).filter
            (fun u => decide (u.timeframe = tf)) = [] := by
        rw [List.filter_eq_nil_iff]
        intro u hu hdec
        have := processTimeframes_labels u hu
        rw [of_decide_eq_true hdec] at this
        exact hnd.1 this
      rw [h1, h2, List.append_nil]
    · -- the head timeframe is filtered out
      have htfne : tf ≠ hd.1 := by
        intro hh
        exact hnd.1 (hh ▸ List.mem_map_of_mem Prod.fst h)
      have h1 : ((processTradeTF sym price qty t hd.1 hd.2 agg).2).filter
          (fun u => decide (u.timeframe = tf)) = [] := by
        rw [List.filter_eq_nil_iff]
        intro u hu hdec
        exact htfne ((of_decide_eq_true hdec) ▸ (processTradeTF_labels u hu).2)
      have h2 := @ih ((processTradeTF sym price qty t hd.1 hd.2 agg).1) hnd.2 h
      rw [h1, h2, List.nil_append]
      exact processTradeTF_updates_congr
        (processTradeTF_other_key (by simp [htfne]))

/-- Claim C2: for every orderbook state (with the nonempty-bucket property that
every reachable state has), `get_spread()` returns `None` if and only if at
least one side has zero resting orders; otherwise it returns the pair
(maximum bid price, minimum ask price), where the bid/ask prices are the price
levels carrying resting orders. -/
theorem C2_get_spread_none_iff_empty_side (s : OrderbookState)
    (hbne : ∀ e ∈ s.bids, e.2 ≠ []) (hane : ∀ e ∈ s.asks, e.2 ≠ []) :
    (get_spread s = none ↔ restingCount s.bids = 0 ∨ restingCount s.asks = 0) ∧
    ∀ b a, get_spread s = some (b, a) →
      (b ∈ s.bids.map Prod.fst ∧ ∀ p ∈ s.bids.map Prod.fst, p ≤ b) ∧
      (a ∈ s.asks.map Prod.fst ∧ ∀ p ∈ s.asks.map Prod.fst, a ≤ p) := by
  constructor
  · constructor
    · intro h
      rw [get_spread] at h
      cases hb : listMax (s.bids.map Prod.fst) with
      | none =>
        left
        rw [restingCount_eq_zero hbne]
        exact List.map_eq_nil_iff.mp (listMax_eq_none.mp hb)
      | some b =>
        cases ha : listMin (s.asks.map Prod.fst) with
        | none =>
          right
          rw [restingCount_eq_zero hane]
          exact List.map_eq_nil_iff.mp (listMin_eq_none.mp ha)
        | some a =>
          rw [hb, ha] at h
          cases h
    · intro h
      rw [get_spread]
      rcases h with h | h
      · have hb : s.bids = [] := (restingCount_eq_zero hbne).mp h
        have : listMax (s.bids.map Prod.fst) = none := by
          rw [listMax_eq_none, List.map_eq_nil_iff]
          exact hb
        rw [this]
      · have ha : s.asks = [] := (restingCount_eq_zero hane).mp h
        have : listMin (s.asks.map Prod.fst) = none := by
          rw [listMin_eq_none, List.map_eq_nil_iff]
          exact ha
        rw [this]
        cases listMax (s.bids.map Prod.fst) <;> rfl
  · intro b a h
    rw [get_spread] at h
    cases hb : listMax (s.bids.map Prod.fst) with
    | none =>
      rw [hb] at h
      cases listMin (s.asks.map Prod.fst) <;> cases h
    | some b' =>
      cases ha : listMin (s.asks.map Prod.fst) with
      | none => rw [hb, ha] at h; cases h
      | some a' =>
        rw [hb, ha] at h
        cases h
        exact ⟨⟨listMax_mem hb, le_listMax hb⟩, ⟨listMin_mem ha, listMin_le ha⟩⟩

/-- Claim C3, amended: provided every partial-fill event reports a filled
quantity not exceeding the target order's quantity (`seqFillGuard`), every
stored order satisfies 0 ≤ filled_quantity ≤ quantity at every observable
point, and the order-by-id query returns
remaining_quantity = quantity − filled_quantity ≥ 0.  (The depth endpoint's
per-order summand `satSub` is clamped to zero unconditionally.) -/
theorem C3_remaining_quantity_invariant (es : List Event)
    (hg : seqFillGuard emptyState es = true) :
    (∀ id o, alookup id (applyEvents emptyState es).orders = some o →
      0 ≤ o.filled_quantity ∧ o.filled_quantity ≤ o.quantity ∧
      (get_order id (applyEvents emptyState es)).map (fun x => x.2)
        = some (o.quantity - o.filled_quantity) ∧
      0 ≤ o.quantity - o.filled_quantity) ∧
    ∀ a b : ℚ, 0 ≤ satSub a b := by
  constructor
  · intro id o hlk
    have h := qtyOK_applyEvents (fun e he => by cases he) hg
    obtain ⟨h1, h2, h3⟩ := h (id, o) (alookup_mem hlk)
    refine ⟨h2, h3, ?_, by linarith⟩
    rw [get_order, hlk]
    rfl
  · intro a b
    exact le_max_right _ _

/-- Every price level of a side appears in its full-depth view. -/
theorem mem_get_bid_depth {s : OrderbookState} {e : ℚ × List ℕ} {n : ℕ}
    (he : e ∈ s.bids) (hn : s.bids.length ≤ n) :
    (e.1, e.2.length) ∈ get_bid_depth s n := by
  rw [get_bid_depth, List.take_of_length_le (by rw [(sortDesc_perm s.bids).length_eq]; exact hn)]
  exact List.mem_map_of_mem _ ((sortDesc_perm s.bids).mem_iff.mpr he)

/-- Claim C6: `update_order(order_id, f, st)` on an existing order sets
filled_quantity to f and status to st.  With status Filled the id is removed
from its price bucket and rests in no bucket of either side, hence contributes
to no level of `get_bid_depth(n)` or `get_ask_depth(n)` for any n, regardless
of price.  With status PartiallyFilled both price-level indexes are unchanged
— the order keeps its original price bucket and time-priority position — its
level still appears in its side's depth view, and the order-by-id remaining
quantity equals quantity − f. -/
theorem C6_update_order_spec :
    ∀ (s : OrderbookState) (id : ℕ) (o : OrderInfo) (f : ℚ), WF s →
      alookup id s.orders = some o →
      (∀ st, ∃ s', update_order id f st s = .ok s' ∧
        alookup id s'.orders = some { o with filled_quantity := f, status := st }) ∧
      (∀ s', update_order id f "Filled" s = .ok s' →
        countIn id s'.bids = 0 ∧ countIn id s'.asks = 0 ∧
        ∀ pr : ℚ, id ∉ bucketGet pr s'.bids ∧ id ∉ bucketGet pr s'.asks) ∧
      (∀ s', update_order id f "PartiallyFilled" s = .ok s' →
        s'.bids = s.bids ∧ s'.asks = s.asks ∧
        (activeStatus o.status →
          id ∈ bucketGet o.price (if o.side = "Buy" then s.bids else s.asks) ∧
          ∀ n, (if o.side = "Buy" then s.bids else s.asks).length ≤ n →
            (o.price, (bucketGet o.price (if o.side = "Buy" then s.bids else s.asks)).length)
              ∈ (if o.side = "Buy" then get_bid_depth s' n else get_ask_depth s' n)) ∧
        (get_order id s').map (fun x => x.2) = some (o.quantity - f)) := by
  intro s id o f hWF hlk
  refine ⟨?_, ?_, ?_⟩
  · intro st
    exact ⟨_, update_order_some hlk, alookup_aupdate_self _ _ _⟩
  · intro s' hok
    have heq := Except.ok.inj ((update_order_some hlk).symm.trans hok)
    have hWF' := WF_update_order_filled hWF hok
    have hlk' : alookup id s'.orders
        = some { o with filled_quantity := f, status := "Filled" } := by
      rw [← heq]
      exact alookup_aupdate_self _ _ _
    obtain ⟨_, _, _, _, _, _, _, hOw'⟩ := hWF'
    obtain ⟨_, hloc⟩ := hOw' (id, { o with filled_quantity := f, status := "Filled" })
      (alookup_mem hlk')
    rw [if_neg (show ¬ activeStatus "Filled" by decide)] at hloc
    exact ⟨hloc.1, hloc.2, fun pr =>
      ⟨not_mem_bucketGet_of_countIn_zero hloc.1 pr,
        not_mem_bucketGet_of_countIn_zero hloc.2 pr⟩⟩
  · intro s' hok
    have heq := Except.ok.inj ((update_order_some hlk).symm.trans hok)
    have hne : ¬ (("PartiallyFilled" : String) = "Filled") := by decide
    have hbids : s'.bids = s.bids := by
      rw [← heq]
      show (if ("PartiallyFilled" : String) = "Filled" ∧ o.side = "Buy"
        then bucketRemove o.price id s.bids else s.bids) = s.bids
      exact if_neg (fun hh => hne hh.1)
    have hasks : s'.asks = s.asks := by
      rw [← heq]
      show (if ("PartiallyFilled" : String) = "Filled" ∧ ¬ o.side = "Buy"
        then bucketRemove o.price id s.asks else s.asks) = s.asks
      exact if_neg (fun hh => hne hh.1)
    have hlk' : alookup id s'.orders
        = some { o with filled_quantity := f, status := "PartiallyFilled" } := by
      rw [← heq]
      exact alookup_aupdate_self _ _ _
    refine ⟨hbids, hasks, ?_, ?_⟩
    · intro hact
      obtain ⟨_, _, _, _, _, _, _, hOw⟩ := hWF
      obtain ⟨hsd, hloc⟩ := hOw (id, o) (alookup_mem hlk)
      dsimp only at hsd hloc
      rw [if_pos (show activeStatus o.status from hact)] at hloc
      obtain ⟨l1, _, _⟩ := hloc
      have hmem : id ∈ bucketGet o.price (ownSide o s) := by
        rw [← List.count_pos_iff]
        omega
      have hbkt : alookup o.price (ownSide o s)
          = some (bucketGet o.price (ownSide o s)) := by
        cases hb : alookup o.price (ownSide o s) with
        | none =>
          rw [bucketGet, hb] at hmem
          cases hmem
        | some b =>
          rw [bucketGet, hb]
          rfl
      rcases hsd with hb | hb
      · have hown : ownSide o s = s.bids := by rw [ownSide, if_pos hb]
        rw [hown] at hmem hbkt
        simp only [if_pos hb]
        refine ⟨hmem, fun n hn => ?_⟩
        have hentry : (o.price, bucketGet o.price s.bids) ∈ s.bids := alookup_mem hbkt
        have hmm := @mem_get_bid_depth s' (o.price, bucketGet o.price s.bids) n
          (by rw [hbids]; exact hentry) (by rw [hbids]; exact hn)
        exact hmm
      · have hx : ¬ o.side = "Buy" := by rw [hb]; decide
        have hown : ownSide o s = s.asks := by rw [ownSide, if_neg hx]
        rw [hown] at hmem hbkt
        simp only [if_neg hx]
        refine ⟨hmem, fun n hn => ?_⟩
        have hentry : (o.price, bucketGet o.price s.asks) ∈ s.asks := alookup_mem hbkt
        have hmm := @mem_get_ask_depth s' (o.price, bucketGet o.price s.asks) n
          (by rw [hasks]; exact hentry) (by rw [hasks]; exact hn)
        exact hmm
    · rw [get_order, hlk']
      rfl

/-- Claim C10: when an OrderFilled event arrives for a known order, the
ingestion loop reads the order's own stored quantity and stores it as
filled_quantity with status Filled, so the remaining quantity is exactly zero;
when the order_id is not in the order map, no mutation happens at all — the
state is returned unchanged and `update_order` is never invoked. -/
theorem C10_order_filled_event :
    (∀ (s : OrderbookState) (id : ℕ) (o : OrderInfo), alookup id s.orders = some o →
      ∃ o', alookup id (applyEvent s (.orderFilled id)).orders = some o' ∧
        o' = { o with filled_quantity := o.quantity, status := "Filled" } ∧
        o'.quantity - o'.filled_quantity = 0) ∧
    (∀ (s : OrderbookState) (id : ℕ), alookup id s.orders = none →
      applyEvent s (.orderFilled id) = s) := by
  constructor
  · intro s id o hlk
    have h1 : applyEvent s (.orderFilled id)
        = exceptD s (update_order id o.quantity "Filled" s) := by
      rw [applyEvent, hlk]
    rw [h1, update_order_some hlk]
    exact ⟨_, alookup_aupdate_self _ _ _, rfl, sub_self _⟩
  · intro s id hlk
    rw [applyEvent, hlk]

/-- Claim C9: every scaled-integer amount entering the reducer or aggregator
is the scaled integer divided exactly by 1,000,000: the price and quantity of
a placed order, the filled quantity of a partial fill, and the price and
quantity fed to `process_trade` for an executed trade. -/
theorem C9_scaled_integer_conversion :
    (∀ (s : OrderbookState) (id : ℕ) (side : OrderSide) (p q : ℕ),
      alookup id s.orders = none →
      ∃ o, alookup id (applyEvent s (.orderPlaced id side p q)).orders = some o ∧
        o.price = (p : ℚ) / 1000000 ∧ o.quantity = (q : ℚ) / 1000000 ∧
        o.filled_quantity = 0) ∧
    (∀ (s : OrderbookState) (id : ℕ) (f r : ℕ) (o : OrderInfo),
      alookup id s.orders = some o →
      ∃ o', alookup id (applyEvent s (.orderPartiallyFilled id f r)).orders = some o' ∧
        o'.filled_quantity = (f : ℚ) / 1000000 ∧ o'.status = "PartiallyFilled") ∧
    (∀ (agg : CandleAggregator) (sym : String) (p q t : ℕ),
      applyTradeEvent agg (.tradeExecuted sym p q t)
        = process_trade sym ((p : ℚ) / 1000000) ((q : ℚ) / 1000000) t agg) := by
  refine ⟨?_, ?_, ?_⟩
  · intro s id side p q hlk
    show ∃ o, alookup id (add_order
      ⟨id, side.toStr, toDec p, toDec q, 0, "Open"⟩ s).orders = some o ∧ _
    rw [add_order, if_neg (by rw [hlk]; decide)]
    exact ⟨_, alookup_aupdate_self _ _ _, rfl, rfl, rfl⟩
  · intro s id f r o hlk
    have h1 : applyEvent s (.orderPartiallyFilled id f r)
        = exceptD s (update_order id (toDec f) "PartiallyFilled" s) := rfl
    rw [h1, update_order_some hlk]
    exact ⟨_, alookup_aupdate_self _ _ _, rfl, rfl⟩
  · intro agg sym p q t
    rfl

/-- Claim C7: for every configured timeframe, `process_trade` at timestamp t
computes bucket_start = ⌊t / bucket_width⌋ · bucket_width; when no bar is open
for (symbol, timeframe), or bucket_start is past the open bar's bucket, the
updates emitted for that timeframe are, in order: a `CandleUpdate` with
is_closed = true for the existing bar (when one is present), then a
`CandleUpdate` with is_closed = false for a fresh bar with
open = high = low = close = price, volume = quantity, time = bucket_start. -/
theorem C7_candle_rollover (agg : CandleAggregator) (sym : String) (price qty : ℚ)
    (t : ℕ) (tf : String) (w : ℕ) (hmem : (tf, w) ∈ timeframes)
    (hroll : alookup (sym, tf) agg.current = none ∨
      ∃ bar, alookup (sym, tf) agg.current = some bar ∧ bar.time < t / w * w) :
    ((process_trade sym price qty t agg).2).filter (fun u => decide (u.timeframe = tf))
      = (match alookup (sym, tf) agg.current with
         | some bar => [⟨sym, tf, bar, true⟩]
         | none => []) ++
        [⟨sym, tf, ⟨t / w * w, price, price, price, price, qty⟩, false⟩] := by
  have hnd : (timeframes.map Prod.fst).Nodup := by decide
  rw [process_trade, processTimeframes_filter hnd hmem]
  rcases hroll with h | ⟨bar, h, hlt⟩
  · rw [processTradeTF, h]
    rfl
  · rw [processTradeTF, h]
    dsimp only
    rw [if_pos hlt]
    rfl

/-- Claim C8: a trade falling in the currently open bucket of a timeframe
updates the open bar in place — high = max(high, price), low = min(low,
price), close = price, volume += quantity, open and time unchanged — and
emits exactly one `CandleUpdate` with is_closed = false for that timeframe;
hence same-bucket trades with prices [100, 105, 98] (quantities 1, 2, 3)
yield a bar with open 100, high 105, low 98, close 98 and volume 6. -/
theorem C8_candle_in_bucket :
    (∀ (agg : CandleAggregator) (sym : String) (price qty : ℚ) (t : ℕ)
      (tf : String) (w : ℕ) (bar : TvBar), (tf, w) ∈ timeframes →
      alookup (sym, tf) agg.current = some bar → bar.time = t / w * w →
      ((process_trade sym price qty t agg).2).filter
          (fun u => decide (u.timeframe = tf))
        = [⟨sym, tf,
            { bar with
              high := max bar.high price
              low := min bar.low price
              close := price
              volume := bar.volume + qty }, false⟩]) ∧
    alookup ("S", "1m")
        ((process_trade "S" 98 3 30
          ((process_trade "S" 105 2 20
            ((process_trade "S" 100 1 10 emptyAggregator).1)).1)).1).current
      = some ⟨0, 100, 105, 98, 98, 6⟩ := by
  constructor
  · intro agg sym price qty t tf w bar hmem hopen hsame
    have hnd : (timeframes.map Prod.fst).Nodup := by decide
    rw [process_trade, processTimeframes_filter hnd hmem, processTradeTF, hopen]
    dsimp only
    rw [if_neg (by omega : ¬ t / w * w > bar.time)]
  · norm_num [process_trade, processTimeframes, processTradeTF, timeframes,
      alookup, aupdate, emptyAggregator, max_def, min_def]

theorem WF_add_order {o : OrderInfo} {s : OrderbookState} (hWF : WF s)
    (hside : o.side = "Buy" ∨ o.side = "Sell") (hstat : o.status = "Open") :
    WF (add_order o s) := by
  by_cases hdup : (alookup o.order_id s.orders).isSome
  · rw [add_order, if_pos hdup]
    exact hWF
  · have hnone : alookup o.order_id s.orders = none :=
      Option.not_isSome_iff_eq_none.mp hdup
    obtain ⟨hOn, hBn, hAn, hBne, hAne, hBm, hAm, hOw⟩ := hWF
    have hfreshB : countIn o.order_id s.bids = 0 := countIn_zero_of_unmapped hBm hnone
    have hfreshA : countIn o.order_id s.asks = 0 := countIn_zero_of_unmapped hAm hnone
    rw [add_order, if_neg hdup]
    set id := o.order_id with hid
    set bids' := if o.side = "Buy" then bucketAppend o.price id s.bids else s.bids with hbids
    set asks' := if o.side = "Buy" then s.asks else bucketAppend o.price id s.asks with hasks
    have hcb : ∀ k, k ≠ id → countIn k bids' = countIn k s.bids := by
      intro k hk
      rw [hbids]
      split
      · rw [countIn_bucketAppend, if_neg (fun h => hk h.symm)]
        omega
      · rfl
    have hca : ∀ k, k ≠ id → countIn k asks' = countIn k s.asks := by
      intro k hk
      rw [hasks]
      split
      · rfl
      · rw [countIn_bucketAppend, if_neg (fun h => hk h.symm)]
        omega
    have hgb : ∀ k, k ≠ id → ∀ p', (bucketGet p' bids').count k = (bucketGet p' s.bids).count k := by
      intro k hk p'
      rw [hbids]
      split
      · exact count_bucketGet_bucketAppend_other _ _ _ hk
      · rfl
    have hga : ∀ k, k ≠ id → ∀ p', (bucketGet p' asks').count k = (bucketGet p' s.asks).count k := by
      intro k hk p'
      rw [hasks]
      split
      · rfl
      · exact count_bucketGet_bucketAppend_other _ _ _ hk
    have hmapped : ∀ m', (∀ e ∈ m', ∀ i ∈ e.2, (alookup i s.orders).isSome) →
        ∀ e ∈ bucketAppend o.price id m', ∀ i ∈ e.2, (alookup i (aupdate id o s.orders)).isSome := by
      intro m' hm e he i hi
      rcases mem_bucketAppend he with h | h
      · rw [h] at hi
        rcases List.mem_append.mp hi with h' | h'
        · obtain ⟨e', he', hie'⟩ := mem_of_mem_bucketGet h'
          exact alookup_isSome_aupdate o (hm e' he' i hie')
        · have : i = id := List.mem_singleton.mp h'
          rw [this, alookup_aupdate_self]
          rfl
      · exact alookup_isSome_aupdate o (hm e h i hi)
    refine ⟨nodup_keys_aupdate o hOn, ?_, ?_, ?_, ?_, ?_, ?_, ?_⟩
    · rw [hbids]
      split
      · exact nodup_keys_bucketAppend _ _ hBn
      · exact hBn
    · rw [hasks]
      split
      · exact hAn
      · exact nodup_keys_bucketAppend _ _ hAn
    · rw [hbids]
      split
      · intro e he
        rcases mem_bucketAppend he with h | h
        · rw [h]
          simp
        · exact hBne e h
      · exact hBne
    · rw [hasks]
      split
      · exact hAne
      · intro e he
        rcases mem_bucketAppend he with h | h
        · rw [h]
          simp
        · exact hAne e h
    · rw [hbids]
      split
      · exact hmapped s.bids hBm
      · exact fun e he i hi => alookup_isSome_aupdate o (hBm e he i hi)
    · rw [hasks]
      split
      · exact fun e he i hi => alookup_isSome_aupdate o (hAm e he i hi)
      · exact hmapped s.asks hAm
    · -- every stored order still rests where its status says
      intro e he
      rcases mem_aupdate he with h | h
      · -- the new order: active, resting exactly once at its price on its side
        rw [h]
        unfold orderWF
        dsimp only
        refine ⟨hside, ?_⟩
        rw [if_pos (show activeStatus o.status from Or.inl hstat)]
        have hact1 : (bucketGet o.price (ownSide o ⟨aupdate id o s.orders, bids', asks'⟩)).count id = 1 := by
          rcases hside with hb | hb
          · rw [ownSide, if_pos hb]
            show (bucketGet o.price bids').count id = 1
            rw [hbids, if_pos hb, bucketGet_bucketAppend_self, List.count_append,
              List.count_singleton]
            have hle := count_bucketGet_le_countIn id o.price s.bids
            simp only [beq_self_eq_true, if_pos]
            omega
          · rw [ownSide, if_neg (by rw [hb]; decide)]
            show (bucketGet o.price asks').count id = 1
            rw [hasks, if_neg (by rw [hb]; decide), bucketGet_bucketAppend_self,
              List.count_append, List.count_singleton]
            have hle := count_bucketGet_le_countIn id o.price s.asks
            simp only [beq_self_eq_true, if_pos]
            omega
        refine ⟨hact1, ?_, ?_⟩
        · rcases hside with hb | hb
          · rw [ownSide, if_pos hb]
            show countIn id bids' = 1
            rw [hbids, if_pos hb, countIn_bucketAppend, if_pos rfl, hfreshB]
          · rw [ownSide, if_neg (by rw [hb]; decide)]
            show countIn id asks' = 1
            rw [hasks, if_neg (by rw [hb]; decide), countIn_bucketAppend, if_pos rfl, hfreshA]
        · rcases hside with hb | hb
          · rw [othSide, if_pos hb]
            show countIn id asks' = 0
            rw [hasks, if_pos hb]
            exact hfreshA
          · rw [othSide, if_neg (by rw [hb]; decide)]
            show countIn id bids' = 0
            rw [hbids, if_neg (by rw [hb]; decide)]
            exact hfreshB
      · -- a pre-existing order: occurrences unchanged
        have hkid : e.1 ≠ id := by
          intro hk
          exact (alookup_eq_none.mp hnone) (hk ▸ List.mem_map_of_mem Prod.fst h)
        obtain ⟨hsd, hloc⟩ := hOw e h
        refine ⟨hsd, ?_⟩
        dsimp only [ownSide, othSide] at hloc ⊢
        split
        · next hact =>
          rw [if_pos hact] at hloc
          obtain ⟨l1, l2, l3⟩ := hloc
          rcases hsd with hb | hb
          · simp only [hb, if_pos] at l1 l2 l3 ⊢
            exact ⟨by rw [hgb e.1 hkid]; exact l1, by rw [hcb e.1 hkid]; exact l2,
              by rw [hca e.1 hkid]; exact l3⟩
          · have hx : ¬ ("Sell" : String) = "Buy" := by decide
            simp only [hb, if_neg hx] at l1 l2 l3 ⊢
            exact ⟨by rw [hga e.1 hkid]; exact l1, by rw [hca e.1 hkid]; exact l2,
              by rw [hcb e.1 hkid]; exact l3⟩
        · next hact =>
          rw [if_neg hact] at hloc
          exact ⟨by rw [hcb e.1 hkid]; exact hloc.1, by rw [hca e.1 hkid]; exact hloc.2⟩

theorem WF_applyEvent {s : OrderbookState} {e : Event} (hWF : WF s)
    (hg : evGuard s e = true) : WF (applyEvent s e) := by
  cases e with
  | orderPlaced id side p q =>
    rw [applyEvent]
    apply WF_add_order hWF _ rfl
    cases side
    · exact Or.inl rfl
    · exact Or.inr rfl
  | orderCancelled id =>
    rw [applyEvent]
    cases hres : cancel_order id s with
    | error _ => exact hWF
    | ok s' => exact WF_cancel_order hWF hres
  | orderFilled id =>
    rw [applyEvent]
    cases hlk : alookup id s.orders with
    | none => exact hWF
    | some o =>
      show WF (exceptD s (update_order id o.quantity "Filled" s))
      cases hres : update_order id o.quantity "Filled" s with
      | error _ => exact hWF
      | ok s' => exact WF_update_order_filled hWF hres
  | orderPartiallyFilled id f r =>
    rw [applyEvent]
    cases hres : update_order id (toDec f) "PartiallyFilled" s with
    | error _ => exact hWF
    | ok s' =>
      show WF s'
      apply WF_update_order_partial hWF hres
      intro o hlk
      rw [evGuard, hlk] at hg
      exact of_decide_eq_true hg
  | tradeExecuted sym p q t => exact hWF

theorem WF_applyEvents {es : List Event} {s : OrderbookState} (hWF : WF s)
    (hg : seqGuard s es = true) : WF (applyEvents s es) := by
  induction es generalizing s with
  | nil => exact hWF
  | cons e es ih =>
    rw [seqGuard, Bool.and_eq_true] at hg
    exact ih (WF_applyEvent hWF hg.1) hg.2

theorem C2_get_spread_witness :
    ((∀ e ∈ spreadScenarioState.bids, e.2 ≠ []) ∧
      (∀ e ∈ spreadScenarioState.asks, e.2 ≠ [])) ∧
    ((get_spread spreadScenarioState = none ↔
        restingCount spreadScenarioState.bids = 0 ∨
        restingCount spreadScenarioState.asks = 0) ∧
      ∀ b a, get_spread spreadScenarioState = some (b, a) →
        (b ∈ spreadScenarioState.bids.map Prod.fst ∧
          ∀ p ∈ spreadScenarioState.bids.map Prod.fst, p ≤ b) ∧
        (a ∈ spreadScenarioState.asks.map Prod.fst ∧
          ∀ p ∈ spreadScenarioState.asks.map Prod.fst, a ≤ p)) :=
  ⟨⟨by decide, by decide⟩,
    C2_get_spread_none_iff_empty_side spreadScenarioState (by decide) (by decide)⟩

theorem C3_remaining_quantity_witness :
    seqFillGuard emptyState
      [.orderPlaced 1 .Buy 1000000 2000000, .orderPartiallyFilled 1 1000000 1000000]
      = true ∧
    ((∀ id o, alookup id (applyEvents emptyState
        [.orderPlaced 1 .Buy 1000000 2000000,
         .orderPartiallyFilled 1 1000000 1000000]).orders = some o →
      0 ≤ o.filled_quantity ∧ o.filled_quantity ≤ o.quantity ∧
      (get_order id (applyEvents emptyState
        [.orderPlaced 1 .Buy 1000000 2000000,
         .orderPartiallyFilled 1 1000000 1000000])).map (fun x => x.2)
        = some (o.quantity - o.filled_quantity) ∧
      0 ≤ o.quantity - o.filled_quantity) ∧
    ∀ a b : ℚ, 0 ≤ satSub a b) := by
  have hg : seqFillGuard emptyState
      [.orderPlaced 1 .Buy 1000000 2000000, .orderPartiallyFilled 1 1000000 1000000]
      = true := by
    norm_num [seqFillGuard, evFillGuard, applyEvent, add_order, alookup, aupdate,
      emptyState, toDec, OrderSide.toStr, bucketAppend, bucketGet]
  exact ⟨hg, C3_remaining_quantity_invariant _ hg⟩

theorem C6_update_order_witness :
    (WF spreadScenarioState ∧
      alookup 1 spreadScenarioState.orders = some ⟨1, "Buy", 50000, 2, 0, "Open"⟩) ∧
    ((∀ st, ∃ s', update_order 1 1 st spreadScenarioState = .ok s' ∧
        alookup 1 s'.orders = some ⟨1, "Buy", 50000, 2, 1, st⟩) ∧
      (∀ s', update_order 1 1 "Filled" spreadScenarioState = .ok s' →
        countIn 1 s'.bids = 0 ∧ countIn 1 s'.asks = 0 ∧
        ∀ pr : ℚ, 1 ∉ bucketGet pr s'.bids ∧ 1 ∉ bucketGet pr s'.asks) ∧
      (∀ s', update_order 1 1 "PartiallyFilled" spreadScenarioState = .ok s' →
        s'.bids = spreadScenarioState.bids ∧ s'.asks = spreadScenarioState.asks ∧
        (activeStatus "Open" →
          1 ∈ bucketGet 50000 (if ("Buy" : String) = "Buy" then spreadScenarioState.bids
            else spreadScenarioState.asks) ∧
          ∀ n, (if ("Buy" : String) = "Buy" then spreadScenarioState.bids
              else spreadScenarioState.asks).length ≤ n →
            ((50000 : ℚ), (bucketGet 50000 (if ("Buy" : String) = "Buy"
              then spreadScenarioState.bids else spreadScenarioState.asks)).length)
              ∈ (if ("Buy" : String) = "Buy" then get_bid_depth s' n
                 else get_ask_depth s' n)) ∧
        (get_order 1 s').map (fun x => x.2) = some (2 - 1))) :=
  ⟨⟨by decide, by decide⟩,
    C6_update_order_spec spreadScenarioState 1 ⟨1, "Buy", 50000, 2, 0, "Open"⟩ 1
      (by decide) (by decide)⟩

theorem C10_order_filled_witness :
    (alookup 1 spreadScenarioState.orders = some ⟨1, "Buy", 50000, 2, 0, "Open"⟩ ∧
      alookup 99 spreadScenarioState.orders = none) ∧
    (∃ o', alookup 1 (applyEvent spreadScenarioState (.orderFilled 1)).orders = some o' ∧
      o' = ⟨1, "Buy", 50000, 2, 2, "Filled"⟩ ∧
      o'.quantity - o'.filled_quantity = 0) ∧
    applyEvent spreadScenarioState (.orderFilled 99) = spreadScenarioState :=
  ⟨⟨by decide, by decide⟩,
    C10_order_filled_event.1 spreadScenarioState 1 ⟨1, "Buy", 50000, 2, 0, "Open"⟩
      (by decide),
    C10_order_filled_event.2 spreadScenarioState 99 (by decide)⟩

theorem C9_scaled_integer_conversion_witness :
    (alookup 99 spreadScenarioState.orders = none ∧
      alookup 1 spreadScenarioState.orders = some ⟨1, "Buy", 50000, 2, 0, "Open"⟩) ∧
    (∃ o, alookup 99 (applyEvent spreadScenarioState
        (.orderPlaced 99 .Sell 50010000000 2000000)).orders = some o ∧
      o.price = (50010000000 : ℚ) / 1000000 ∧ o.quantity = (2000000 : ℚ) / 1000000 ∧
      o.filled_quantity = 0) ∧
    (∃ o', alookup 1 (applyEvent spreadScenarioState
        (.orderPartiallyFilled 1 1000000 1000000)).orders = some o' ∧
      o'.filled_quantity = (1000000 : ℚ) / 1000000 ∧ o'.status = "PartiallyFilled") :=
  ⟨⟨by decide, by decide⟩,
    C9_scaled_integer_conversion.1 spreadScenarioState 99 .Sell 50010000000 2000000
      (by decide),
    C9_scaled_integer_conversion.2.1 spreadScenarioState 1 1000000 1000000
      ⟨1, "Buy", 50000, 2, 0, "Open"⟩ (by decide)⟩

theorem C7_candle_rollover_witness :
    (("1m", 60) ∈ timeframes ∧
      alookup ("S", "1m") ((process_trade "S" 5 1 100 emptyAggregator).1).current
        = some ⟨60, 5, 5, 5, 5, 1⟩ ∧ 60 < 140 / 60 * 60) ∧
    ((process_trade "S" 7 2 140 ((process_trade "S" 5 1 100 emptyAggregator).1)).2).filter
        (fun u => decide (u.timeframe = "1m"))
      = (match alookup ("S", "1m")
            ((process_trade "S" 5 1 100 emptyAggregator).1).current with
         | some bar => [⟨"S", "1m", bar, true⟩]
         | none => []) ++
        [⟨"S", "1m", ⟨140 / 60 * 60, 7, 7, 7, 7, 2⟩, false⟩] :=
  ⟨⟨by decide, by decide, by decide⟩,
    C7_candle_rollover _ "S" 7 2 140 "1m" 60 (by decide)
      (Or.inr ⟨⟨60, 5, 5, 5, 5, 1⟩, by decide, by decide⟩)⟩

theorem C8_candle_in_bucket_witness :
    (("1m", 60) ∈ timeframes ∧
      alookup ("S", "1m") ((process_trade "S" 100 1 10 emptyAggregator).1).current
        = some ⟨0, 100, 100, 100, 100, 1⟩ ∧
      (0 : ℕ) = 20 / 60 * 60) ∧
    ((process_trade "S" 105 2 20 ((process_trade "S" 100 1 10 emptyAggregator).1)).2).filter
        (fun u => decide (u.timeframe = "1m"))
      = [⟨"S", "1m",
          { (⟨0, 100, 100, 100, 100, 1⟩ : TvBar) with
            high := max 100 105
            low := min 100 105
            close := 105
            volume := 1 + 2 }, false⟩] :=
  ⟨⟨by decide, by decide, by decide⟩,
    C8_candle_in_bucket.1 _ "S" 105 2 20 "1m" 60 ⟨0, 100, 100, 100, 100, 1⟩
      (by decide) (by decide) (by decide)⟩

/-- Claim C4, amended: after every sequence of applied events in which no
partial-fill event targets an order that is already terminal (Cancelled or
Filled), an order_id occurs in exactly one side's price-level sequence iff
that order's status is Open or PartiallyFilled; each operation, as invoked by
the ingestion loop under that guard, preserves the invariant. -/
theorem C4_active_iff_resting (es : List Event)
    (hg : seqGuard emptyState es = true) :
    InBookIffActive (applyEvents emptyState es) := by
  have hWF := WF_applyEvents WF_emptyState hg
  obtain ⟨hOn, _, _, _, _, _, _, hOw⟩ := hWF
  intro id o hlk
  obtain ⟨hsd, hloc⟩ := hOw (id, o) (alookup_mem hlk)
  dsimp only at hloc
  constructor
  · intro hcnt
    by_contra hact
    rw [if_neg (show ¬ activeStatus o.status from hact)] at hloc
    omega
  · intro hact
    rw [if_pos (show activeStatus o.status from hact)] at hloc
    obtain ⟨_, l2, l3⟩ := hloc
    rcases hsd with hb | hb
    · rw [ownSide, if_pos hb] at l2
      rw [othSide, if_pos hb] at l3
      omega
    · have hx : ¬ o.side = "Buy" := by rw [hb]; decide
      rw [ownSide, if_neg hx] at l2
      rw [othSide, if_neg hx] at l3
      omega

/-- Claim C5: `cancel_order(order_id)` fails with NotFound exactly when the id
is absent from the order map, in which case the ingestion loop leaves the
state unchanged; on a present order it removes the id from its side's price
bucket, sets status Cancelled and retains the record; and an order placed then
cancelled rests in no bucket of either side afterwards — hence contributes to
no level of either depth query — while remaining retrievable by id with
status Cancelled. -/
theorem C5_cancel_order_spec :
    (∀ id s, (cancel_order id s = .error .notFound ↔ alookup id s.orders = none) ∧
      (alookup id s.orders = none → applyEvent s (.orderCancelled id) = s)) ∧
    (∀ id s o, WF s → alookup id s.orders = some o →
      ∃ s', cancel_order id s = .ok s' ∧
        alookup id s'.orders = some { o with status := "Cancelled" } ∧
        id ∉ bucketGet o.price (if o.side = "Buy" then s'.bids else s'.asks)) ∧
    (∀ s id side p q, WF s → alookup id s.orders = none →
      countIn id (applyEvents s [.orderPlaced id side p q, .orderCancelled id]).bids = 0 ∧
      countIn id (applyEvents s [.orderPlaced id side p q, .orderCancelled id]).asks = 0 ∧
      (∀ pr : ℚ,
        id ∉ bucketGet pr (applyEvents s [.orderPlaced id side p q, .orderCancelled id]).bids ∧
        id ∉ bucketGet pr (applyEvents s [.orderPlaced id side p q, .orderCancelled id]).asks) ∧
      (get_order id (applyEvents s [.orderPlaced id side p q, .orderCancelled id])).map
          (fun x => x.1.status) = some "Cancelled") := by
  refine ⟨?_, ?_, ?_⟩
  · intro id s
    constructor
    · cases hlk : alookup id s.orders with
      | none => exact ⟨fun _ => rfl, fun _ => cancel_order_none hlk⟩
      | some o =>
        constructor
        · intro h
          rw [cancel_order_some hlk] at h
          cases h
        · intro h
          exact Option.noConfusion h
    · intro hlk
      rw [applyEvent, cancel_order_none hlk]
      rfl
  · intro id s o hWF hlk
    refine ⟨_, cancel_order_some hlk, alookup_aupdate_self _ _ _, ?_⟩
    obtain ⟨_, hBn, hAn, _⟩ := hWF
    by_cases hb : o.side = "Buy"
    · rw [if_pos hb]
      dsimp only
      rw [if_pos hb, bucketGet_bucketRemove_self id hBn]
      intro hmem
      have := (List.mem_filter.mp hmem).2
      simp at this
    · rw [if_neg hb]
      dsimp only
      rw [if_neg hb, bucketGet_bucketRemove_self id hAn]
      intro hmem
      have := (List.mem_filter.mp hmem).2
      simp at this
  · intro s id side p q hWF hnone
    have hshow : applyEvents s [.orderPlaced id side p q, .orderCancelled id]
        = applyEvent (applyEvent s (.orderPlaced id side p q)) (.orderCancelled id) := rfl
    set o₀ : OrderInfo :=
      ⟨id, side.toStr, toDec p, toDec q, 0, "Open"⟩ with ho₀
    have hside : o₀.side = "Buy" ∨ o₀.side = "Sell" := by
      cases side
      · exact Or.inl rfl
      · exact Or.inr rfl
    have hs1 : applyEvent s (.orderPlaced id side p q) = add_order o₀ s := rfl
    have hWF1 : WF (add_order o₀ s) := WF_add_order hWF hside rfl
    have hlk1 : alookup id (add_order o₀ s).orders = some o₀ := by
      rw [add_order, if_neg (by rw [hnone]; decide)]
      exact alookup_aupdate_self _ _ _
    have hcan := cancel_order_some hlk1
    have hs2 : applyEvent (add_order o₀ s) (.orderCancelled id)
        = exceptD (add_order o₀ s) (cancel_order id (add_order o₀ s)) := rfl
    rw [hshow, hs1, hs2, hcan]
    set s2 : OrderbookState :=
      { orders := aupdate id { o₀ with status := "Cancelled" } (add_order o₀ s).orders
        bids := if o₀.side = "Buy" then bucketRemove o₀.price id (add_order o₀ s).bids
                else (add_order o₀ s).bids
        asks := if o₀.side = "Buy" then (add_order o₀ s).asks
                else bucketRemove o₀.price id (add_order o₀ s).asks } with hs2def
    have hWF2 : WF s2 := WF_cancel_order hWF1 hcan
    have hlk2 : alookup id s2.orders = some { o₀ with status := "Cancelled" } :=
      alookup_aupdate_self _ _ _
    obtain ⟨_, _, _, _, _, _, _, hOw2⟩ := hWF2
    obtain ⟨_, hloc2⟩ := hOw2 (id, { o₀ with status := "Cancelled" }) (alookup_mem hlk2)
    rw [if_neg (show ¬ activeStatus "Cancelled" by decide)] at hloc2
    refine ⟨hloc2.1, hloc2.2, ?_, ?_⟩
    · intro pr
      exact ⟨not_mem_bucketGet_of_countIn_zero hloc2.1 pr,
        not_mem_bucketGet_of_countIn_zero hloc2.2 pr⟩
    · show (get_order id s2).map (fun x => x.1.status) = some "Cancelled"
      rw [get_order, hlk2]
      rfl

theorem C4_active_iff_resting_witness :
    seqGuard emptyState
      [.orderPlaced 1 .Buy 1000000 2000000, .orderPartiallyFilled 1 1000000 1000000,
       .orderCancelled 1] = true ∧
    InBookIffActive (applyEvents emptyState
      [.orderPlaced 1 .Buy 1000000 2000000, .orderPartiallyFilled 1 1000000 1000000,
       .orderCancelled 1]) := by
  have hg : seqGuard emptyState
      [.orderPlaced 1 .Buy 1000000 2000000, .orderPartiallyFilled 1 1000000 1000000,
       .orderCancelled 1] = true := by
    norm_num [seqGuard, evGuard, applyEvents, applyEvent, add_order, cancel_order,
      update_order, exceptD, alookup, aupdate, aremove, emptyState, toDec,
      OrderSide.toStr, bucketAppend, bucketRemove, bucketGet, activeStatus]
  exact ⟨hg, C4_active_iff_resting _ hg⟩

theorem C5_cancel_order_witness :
    (WF emptyState ∧ alookup 7 emptyState.orders = none) ∧
    (countIn 7 (applyEvents emptyState
        [.orderPlaced 7 .Buy 50000000000 2000000, .orderCancelled 7]).bids = 0 ∧
      countIn 7 (applyEvents emptyState
        [.orderPlaced 7 .Buy 50000000000 2000000, .orderCancelled 7]).asks = 0 ∧
      (∀ pr : ℚ,
        7 ∉ bucketGet pr (applyEvents emptyState
          [.orderPlaced 7 .Buy 50000000000 2000000, .orderCancelled 7]).bids ∧
        7 ∉ bucketGet pr (applyEvents emptyState
          [.orderPlaced 7 .Buy 50000000000 2000000, .orderCancelled 7]).asks) ∧
      (get_order 7 (applyEvents emptyState
        [.orderPlaced 7 .Buy 50000000000 2000000, .orderCancelled 7])).map
          (fun x => x.1.status) = some "Cancelled") :=
  ⟨⟨by decide, by decide⟩,
    C5_cancel_order_spec.2.2 emptyState 7 .Buy 50000000000 2000000 (by decide) (by decide)⟩
